import Mathlib

/-!
# Verification of the onlinetalk server core

Shallow embedding of the onlinetalk repository's protocol codec, byte buffer,
session registry, and the message / group / file services, with theorems
checking the natural-language specification against the code.

Machine integers are modelled as `Nat`/`Int` with explicit `% 2 ^ w` where the
C++ performs a narrowing cast or masked shift.  Strings from the C++ are
modelled as Lean `String`s, byte payloads as `List Nat` (each entry a
`uint8_t` value).  SQLite tables are modelled as lists of row structures;
a transaction is a function that either returns the updated tables or an
error, the caller keeping the original tables on error (mirroring
`BEGIN`/`COMMIT`/`ROLLBACK`).
-/

namespace OnlineTalk

/-- A wire byte; C++ `uint8_t` values are below 256. -/
abbrev Byte := Nat

/-! ## Framing codec (`common/protocol/packet.h`, `codec.h`, `codec.cpp`) -/

/-- `PacketHeader::kMagic` ("OLTK"). -/
def kMagic : Nat := 0x4F4C544B

/-- `PacketHeader::kVersion`. -/
def kVersion : Nat := 1

/-- `Codec::kHeaderSize`. -/
def kHeaderSize : Nat := 28

/-- `Codec::kMaxMetaSize` (1 MiB). -/
def kMaxMetaSize : Nat := 1024 * 1024

/-- `Codec::kMaxBinarySize` (32 MiB). -/
def kMaxBinarySize : Nat := 32 * 1024 * 1024

/-- `PacketHeader` from `packet.h`; the fields are `uint32`/`uint16`/`uint64`. -/
structure PacketHeader where
  magic : Nat
  version : Nat
  type : Nat
  flags : Nat
  request_id : Nat
  meta_len : Nat
  bin_len : Nat
deriving Repr, DecidableEq

/-- `Packet` from `packet.h`: header plus the JSON metadata bytes and the
binary payload bytes. -/
structure Packet where
  header : PacketHeader
  meta_json : List Byte
  binary : List Byte
deriving Repr, DecidableEq

/-- `writeU16` in `codec.cpp`: pushes the two big-endian bytes of the value. -/
def writeU16 (v : Nat) : List Byte := [v / 256 % 256, v % 256]

/-- `writeU32` in `codec.cpp`. -/
def writeU32 (v : Nat) : List Byte :=
  [v / 16777216 % 256, v / 65536 % 256, v / 256 % 256, v % 256]

/-- `writeU64` in `codec.cpp` (loop over `i = 7 .. 0`). -/
def writeU64 (v : Nat) : List Byte :=
  [v / 72057594037927936 % 256, v / 281474976710656 % 256, v / 1099511627776 % 256,
   v / 4294967296 % 256, v / 16777216 % 256, v / 65536 % 256, v / 256 % 256, v % 256]

/-- Byte at index `i`; the C++ reads through a raw pointer, always in bounds
after the size checks. -/
def byteAt : List Byte → Nat → Nat
  | [], _ => 0
  | b :: _, 0 => b
  | _ :: l, n + 1 => byteAt l n

/-- `readU16(data + i)` in `codec.cpp`. -/
def readU16at (l : List Byte) (i : Nat) : Nat := byteAt l i * 256 + byteAt l (i + 1)

/-- `readU32(data + i)` in `codec.cpp`. -/
def readU32at (l : List Byte) (i : Nat) : Nat :=
  byteAt l i * 16777216 + byteAt l (i + 1) * 65536 + byteAt l (i + 2) * 256 + byteAt l (i + 3)

/-- `readU64(data + i)` in `codec.cpp` (the loop accumulates big-endian). -/
def readU64at (l : List Byte) (i : Nat) : Nat :=
  byteAt l i * 72057594037927936 + byteAt l (i + 1) * 281474976710656 +
  byteAt l (i + 2) * 1099511627776 + byteAt l (i + 3) * 4294967296 +
  byteAt l (i + 4) * 16777216 + byteAt l (i + 5) * 65536 +
  byteAt l (i + 6) * 256 + byteAt l (i + 7)

/-- `ByteBuffer` from `byte_buffer.h`: a growable byte vector with a consume
cursor `offset_`. -/
structure ByteBuffer where
  buf : List Byte
  offset : Nat
deriving Repr, DecidableEq

namespace ByteBuffer

/-- `ByteBuffer::size()`: bytes visible past the cursor. -/
def size (b : ByteBuffer) : Nat := b.buf.length - b.offset

/-- `ByteBuffer::data()`: the visible byte sequence starting at the cursor. -/
def dataView (b : ByteBuffer) : List Byte := b.buf.drop b.offset

/-- `ByteBuffer::append`. -/
def append (b : ByteBuffer) (d : List Byte) : ByteBuffer := ⟨b.buf ++ d, b.offset⟩

/-- `ByteBuffer::consume` from `byte_buffer.cpp`: advances the cursor (clamped
to the vector size), clears the vector when fully consumed, and compacts when
the cursor passes half the vector. -/
def consume (b : ByteBuffer) (n : Nat) : ByteBuffer :=
  if n = 0 then b
  else
    let off := min (b.offset + n) b.buf.length
    if 0 < off ∧ off = b.buf.length then ⟨[], 0⟩
    else if 0 < off ∧ b.buf.length / 2 ≤ off then ⟨b.buf.drop off, 0⟩
    else ⟨b.buf, off⟩

end ByteBuffer

namespace Codec

/-- `Codec::encode` from `codec.cpp`: header fields big-endian, then the
computed `meta_len`/`bin_len`, then the two payloads.  The appends are grouped
to the right (grouping is semantically irrelevant for the sequential
`push_back`s of the C++). -/
def encode (p : Packet) : List Byte :=
  writeU32 p.header.magic ++ (writeU16 p.header.version ++ (writeU16 p.header.type ++
    (writeU32 p.header.flags ++ (writeU64 p.header.request_id ++
    (writeU32 p.meta_json.length ++ (writeU32 p.binary.length ++
    (p.meta_json ++ p.binary)))))))

/-- The peek phase of `Codec::decode`: parse one frame off the visible bytes.
Returns the packet and the total frame size to consume, or `none` when the
header is incomplete, magic/version are wrong, the lengths exceed the caps, or
the full frame is not yet present (the C++ signals all of these by returning
`false` without consuming). -/
def decodeFrame (vis : List Byte) : Option (Packet × Nat) :=
  if vis.length < kHeaderSize then none
  else
    let header : PacketHeader :=
      { magic := readU32at vis 0
        version := readU16at vis 4
        type := readU16at vis 6
        flags := readU32at vis 8
        request_id := readU64at vis 12
        meta_len := readU32at vis 20
        bin_len := readU32at vis 24 }
    if header.magic ≠ kMagic ∨ header.version ≠ kVersion then none
    else if kMaxMetaSize < header.meta_len ∨ kMaxBinarySize < header.bin_len then none
    else
      let total := kHeaderSize + header.meta_len + header.bin_len
      if vis.length < total then none
      else
        some ({ header := header
                meta_json := (vis.drop kHeaderSize).take header.meta_len
                binary := (vis.drop (kHeaderSize + header.meta_len)).take header.bin_len },
              total)

/-- `Codec::decode` from `codec.cpp`: peek the visible bytes; on success
consume the whole frame and hand the packet out, otherwise leave the buffer
untouched and report no packet. -/
def decode (b : ByteBuffer) : Option Packet × ByteBuffer :=
  match decodeFrame b.dataView with
  | none => (none, b)
  | some (p, total) => (some p, b.consume total)

/-- A packet the rest of the program can actually build: the C++ field types
bound every header field, the header's magic/version carry their defaults, and
the header length fields agree with the payload sizes (as `encode` recomputes
them); the payload sizes are within the declared caps. -/
def WellFormed (p : Packet) : Prop :=
  p.header.magic = kMagic ∧ p.header.version = kVersion ∧
  p.header.type < 65536 ∧ p.header.flags < 4294967296 ∧
  p.header.request_id < 18446744073709551616 ∧
  p.header.meta_len = p.meta_json.length ∧ p.header.bin_len = p.binary.length ∧
  p.meta_json.length ≤ kMaxMetaSize ∧ p.binary.length ≤ kMaxBinarySize

instance (p : Packet) : Decidable (WellFormed p) := by
  unfold WellFormed; infer_instance

end Codec

/-! ### Codec lemmas -/

theorem byteAt_take {l : List Byte} {k i : Nat} (h : i < k) :
    byteAt (l.take k) i = byteAt l i := by
  induction l generalizing k i with
  | nil => simp [byteAt]
  | cons b l ih =>
    cases k with
    | zero => omega
    | succ k =>
      cases i with
      | zero => simp [byteAt]
      | succ i => simpa [byteAt] using ih (by omega)

theorem dataView_consume (b : ByteBuffer) (n : Nat) (h : n ≤ b.dataView.length) :
    (b.consume n).dataView = b.dataView.drop n := by
  have hlen : b.dataView.length = b.buf.length - b.offset := by
    simp [ByteBuffer.dataView]
  simp only [ByteBuffer.consume]
  split_ifs with h0 h1 h2
  · subst h0; rfl
  · have hmin : min (b.offset + n) b.buf.length = b.offset + n := by omega
    rw [hmin] at h1
    show ([] : List Byte).drop 0 = (b.buf.drop b.offset).drop n
    simp only [List.drop_zero, List.drop_drop]
    exact (List.drop_eq_nil_of_le (by omega)).symm
  · have hmin : min (b.offset + n) b.buf.length = b.offset + n := by omega
    rw [hmin]
    show (b.buf.drop (b.offset + n)).drop 0 = (b.buf.drop b.offset).drop n
    simp only [List.drop_zero, List.drop_drop]
    norm_num
  · have hmin : min (b.offset + n) b.buf.length = b.offset + n := by omega
    rw [hmin]
    show b.buf.drop (b.offset + n) = (b.buf.drop b.offset).drop n
    simp only [List.drop_drop]

theorem decodeFrame_some {vis : List Byte} {p : Packet} {total : Nat}
    (h : Codec.decodeFrame vis = some (p, total)) :
    total = kHeaderSize + p.header.meta_len + p.header.bin_len ∧ total ≤ vis.length := by
  simp only [Codec.decodeFrame] at h
  split_ifs at h
  simp only [Option.some.injEq, Prod.mk.injEq] at h
  obtain ⟨hp, ht⟩ := h
  subst hp; subst ht
  refine ⟨rfl, by omega⟩


theorem readU32at_encode_0 (p : Packet) (rest : List Byte)
    (h : p.header.magic < 4294967296) :
    readU32at (Codec.encode p ++ rest) 0 = p.header.magic := by
  obtain ⟨⟨m, v, t, f, r, ml, bl⟩, meta, bin⟩ := p
  simp only at h
  have e : readU32at (Codec.encode ⟨⟨m, v, t, f, r, ml, bl⟩, meta, bin⟩ ++ rest) 0 =
      m / 16777216 % 256 * 16777216 + m / 65536 % 256 * 65536 +
      m / 256 % 256 * 256 + m % 256 := rfl
  simp only at e ⊢
  omega

theorem readU16at_encode_4 (p : Packet) (rest : List Byte)
    (h : p.header.version < 65536) :
    readU16at (Codec.encode p ++ rest) 4 = p.header.version := by
  obtain ⟨⟨m, v, t, f, r, ml, bl⟩, meta, bin⟩ := p
  simp only at h
  have e : readU16at (Codec.encode ⟨⟨m, v, t, f, r, ml, bl⟩, meta, bin⟩ ++ rest) 4 =
      v / 256 % 256 * 256 + v % 256 := rfl
  simp only at e ⊢
  omega

theorem readU16at_encode_6 (p : Packet) (rest : List Byte)
    (h : p.header.type < 65536) :
    readU16at (Codec.encode p ++ rest) 6 = p.header.type := by
  obtain ⟨⟨m, v, t, f, r, ml, bl⟩, meta, bin⟩ := p
  simp only at h
  have e : readU16at (Codec.encode ⟨⟨m, v, t, f, r, ml, bl⟩, meta, bin⟩ ++ rest) 6 =
      t / 256 % 256 * 256 + t % 256 := rfl
  simp only at e ⊢
  omega

theorem readU32at_encode_8 (p : Packet) (rest : List Byte)
    (h : p.header.flags < 4294967296) :
    readU32at (Codec.encode p ++ rest) 8 = p.header.flags := by
  obtain ⟨⟨m, v, t, f, r, ml, bl⟩, meta, bin⟩ := p
  simp only at h
  have e : readU32at (Codec.encode ⟨⟨m, v, t, f, r, ml, bl⟩, meta, bin⟩ ++ rest) 8 =
      f / 16777216 % 256 * 16777216 + f / 65536 % 256 * 65536 +
      f / 256 % 256 * 256 + f % 256 := rfl
  simp only at e ⊢
  omega

set_option maxHeartbeats 3200000 in
theorem readU64at_encode_12 (p : Packet) (rest : List Byte)
    (h : p.header.request_id < 18446744073709551616) :
    readU64at (Codec.encode p ++ rest) 12 = p.header.request_id := by
  obtain ⟨⟨m, v, t, f, r, ml, bl⟩, meta, bin⟩ := p
  simp only at h
  have e : readU64at (Codec.encode ⟨⟨m, v, t, f, r, ml, bl⟩, meta, bin⟩ ++ rest) 12 =
      r / 72057594037927936 % 256 * 72057594037927936 +
      r / 281474976710656 % 256 * 281474976710656 +
      r / 1099511627776 % 256 * 1099511627776 + r / 4294967296 % 256 * 4294967296 +
      r / 16777216 % 256 * 16777216 + r / 65536 % 256 * 65536 +
      r / 256 % 256 * 256 + r % 256 := rfl
  simp only at e ⊢
  omega

theorem readU32at_encode_20 (p : Packet) (rest : List Byte)
    (h : p.meta_json.length < 4294967296) :
    readU32at (Codec.encode p ++ rest) 20 = p.meta_json.length := by
  obtain ⟨⟨m, v, t, f, r, ml, bl⟩, meta, bin⟩ := p
  simp only at h
  have e : readU32at (Codec.encode ⟨⟨m, v, t, f, r, ml, bl⟩, meta, bin⟩ ++ rest) 20 =
      meta.length / 16777216 % 256 * 16777216 + meta.length / 65536 % 256 * 65536 +
      meta.length / 256 % 256 * 256 + meta.length % 256 := rfl
  simp only at e ⊢
  omega

theorem readU32at_encode_24 (p : Packet) (rest : List Byte)
    (h : p.binary.length < 4294967296) :
    readU32at (Codec.encode p ++ rest) 24 = p.binary.length := by
  obtain ⟨⟨m, v, t, f, r, ml, bl⟩, meta, bin⟩ := p
  simp only at h
  have e : readU32at (Codec.encode ⟨⟨m, v, t, f, r, ml, bl⟩, meta, bin⟩ ++ rest) 24 =
      bin.length / 16777216 % 256 * 16777216 + bin.length / 65536 % 256 * 65536 +
      bin.length / 256 % 256 * 256 + bin.length % 256 := rfl
  simp only at e ⊢
  omega

theorem encode_append_length (p : Packet) (rest : List Byte) :
    (Codec.encode p ++ rest).length =
      28 + (p.meta_json.length + (p.binary.length + rest.length)) := by
  obtain ⟨⟨m, v, t, f, r, ml, bl⟩, meta, bin⟩ := p
  simp only [Codec.encode, writeU16, writeU32, writeU64, List.cons_append, List.nil_append,
    List.length_append, List.length_cons, List.length_nil]
  omega

theorem encode_append_drop_28 (p : Packet) (rest : List Byte) :
    (Codec.encode p ++ rest).drop 28 = p.meta_json ++ (p.binary ++ rest) := by
  obtain ⟨⟨m, v, t, f, r, ml, bl⟩, meta, bin⟩ := p
  simp only [Codec.encode, writeU16, writeU32, writeU64, List.cons_append, List.nil_append,
    List.append_assoc, List.drop_succ_cons, List.drop_zero]


theorem decodeFrame_encode_append (p : Packet) (rest : List Byte)
    (hwf : Codec.WellFormed p) :
    Codec.decodeFrame (Codec.encode p ++ rest) =
      some (p, kHeaderSize + p.meta_json.length + p.binary.length) := by
  obtain ⟨hm, hv, ht, hf, hr, hml, hbl, hcapm, hcapb⟩ := hwf
  obtain ⟨⟨m, v, t, f, r, ml, bl⟩, meta, bin⟩ := p
  simp only at hm hv ht hf hr hml hbl hcapm hcapb
  subst hm hv hml hbl
  have hmlt : meta.length < 4294967296 := by
    simp only [kMaxMetaSize] at hcapm; omega
  have hblt : bin.length < 4294967296 := by
    simp only [kMaxBinarySize] at hcapb; omega
  have h1 := readU32at_encode_0 ⟨⟨kMagic, kVersion, t, f, r, meta.length, bin.length⟩,
    meta, bin⟩ rest (by simp [kMagic])
  have h2 := readU16at_encode_4 ⟨⟨kMagic, kVersion, t, f, r, meta.length, bin.length⟩,
    meta, bin⟩ rest (by simp [kVersion])
  have h3 := readU16at_encode_6 ⟨⟨kMagic, kVersion, t, f, r, meta.length, bin.length⟩,
    meta, bin⟩ rest (by simpa using ht)
  have h4 := readU32at_encode_8 ⟨⟨kMagic, kVersion, t, f, r, meta.length, bin.length⟩,
    meta, bin⟩ rest (by simpa using hf)
  have h5 := readU64at_encode_12 ⟨⟨kMagic, kVersion, t, f, r, meta.length, bin.length⟩,
    meta, bin⟩ rest (by simpa using hr)
  have h6 := readU32at_encode_20 ⟨⟨kMagic, kVersion, t, f, r, meta.length, bin.length⟩,
    meta, bin⟩ rest (by simpa using hmlt)
  have h7 := readU32at_encode_24 ⟨⟨kMagic, kVersion, t, f, r, meta.length, bin.length⟩,
    meta, bin⟩ rest (by simpa using hblt)
  have hlen := encode_append_length ⟨⟨kMagic, kVersion, t, f, r, meta.length, bin.length⟩,
    meta, bin⟩ rest
  have hd28 := encode_append_drop_28 ⟨⟨kMagic, kVersion, t, f, r, meta.length, bin.length⟩,
    meta, bin⟩ rest
  simp only at h1 h2 h3 h4 h5 h6 h7 hlen hd28
  simp only [Codec.decodeFrame, h1, h2, h3, h4, h5, h6, h7, hlen]
  rw [if_neg (by simp only [kHeaderSize]; omega)]
  rw [if_neg (by simp)]
  rw [if_neg (by push_neg; exact ⟨by omega, by omega⟩)]
  rw [if_neg (by simp only [kHeaderSize]; omega)]
  have hmeta : ((Codec.encode ⟨⟨kMagic, kVersion, t, f, r, meta.length, bin.length⟩,
      meta, bin⟩ ++ rest).drop kHeaderSize).take meta.length = meta := by
    simp only [kHeaderSize, hd28]
    exact List.take_left meta (bin ++ rest)
  have hbin2 : ((Codec.encode ⟨⟨kMagic, kVersion, t, f, r, meta.length, bin.length⟩,
      meta, bin⟩ ++ rest).drop (kHeaderSize + meta.length)).take bin.length = bin := by
    have hdd : (Codec.encode ⟨⟨kMagic, kVersion, t, f, r, meta.length, bin.length⟩,
        meta, bin⟩ ++ rest).drop (kHeaderSize + meta.length) =
        ((Codec.encode ⟨⟨kMagic, kVersion, t, f, r, meta.length, bin.length⟩,
        meta, bin⟩ ++ rest).drop kHeaderSize).drop meta.length := by
      rw [List.drop_drop]
    rw [hdd]
    simp only [kHeaderSize, hd28]
    rw [List.drop_left, List.take_left]
  rw [hmeta, hbin2]


theorem readU16at_take {l : List Byte} {k i : Nat} (h : i + 1 < k) :
    readU16at (l.take k) i = readU16at l i := by
  unfold readU16at
  rw [byteAt_take (by omega), byteAt_take (by omega)]

theorem readU32at_take {l : List Byte} {k i : Nat} (h : i + 3 < k) :
    readU32at (l.take k) i = readU32at l i := by
  unfold readU32at
  rw [byteAt_take (by omega), byteAt_take (by omega), byteAt_take (by omega),
    byteAt_take (by omega)]

theorem readU64at_take {l : List Byte} {k i : Nat} (h : i + 7 < k) :
    readU64at (l.take k) i = readU64at l i := by
  unfold readU64at
  rw [byteAt_take (by omega), byteAt_take (by omega), byteAt_take (by omega),
    byteAt_take (by omega), byteAt_take (by omega), byteAt_take (by omega),
    byteAt_take (by omega), byteAt_take (by omega)]

theorem decodeFrame_encode_take (p : Packet) (hwf : Codec.WellFormed p) (k : Nat)
    (hk : k < kHeaderSize + p.meta_json.length + p.binary.length) :
    Codec.decodeFrame ((Codec.encode p).take k) = none := by
  have hE : Codec.encode p ++ [] = Codec.encode p := by simp
  have hlen : (Codec.encode p).length =
      28 + (p.meta_json.length + (p.binary.length + 0)) := by
    rw [← hE]
    exact encode_append_length p []
  simp only [kHeaderSize] at hk
  by_cases h28 : k < 28
  · simp only [Codec.decodeFrame]
    rw [if_pos]
    simp only [kHeaderSize, List.length_take]
    omega
  · obtain ⟨hm, hv, ht, hf, hr, hml, hbl, hcapm, hcapb⟩ := hwf
    have hmlt : p.meta_json.length < 4294967296 := by
      simp only [kMaxMetaSize] at hcapm; omega
    have hblt : p.binary.length < 4294967296 := by
      simp only [kMaxBinarySize] at hcapb; omega
    have h1 : readU32at ((Codec.encode p).take k) 0 = p.header.magic := by
      rw [readU32at_take (by omega), ← hE, readU32at_encode_0 p [] (by rw [hm]; simp [kMagic])]
    have h2 : readU16at ((Codec.encode p).take k) 4 = p.header.version := by
      rw [readU16at_take (by omega), ← hE, readU16at_encode_4 p [] (by rw [hv]; simp [kVersion])]
    have h6 : readU32at ((Codec.encode p).take k) 20 = p.meta_json.length := by
      rw [readU32at_take (by omega), ← hE, readU32at_encode_20 p [] hmlt]
    have h7 : readU32at ((Codec.encode p).take k) 24 = p.binary.length := by
      rw [readU32at_take (by omega), ← hE, readU32at_encode_24 p [] hblt]
    simp only [Codec.decodeFrame, h1, h2, h6, h7, hm, hv, List.length_take]
    rw [if_neg (by simp only [kHeaderSize]; omega)]
    rw [if_neg (by simp)]
    rw [if_neg (by push_neg; exact ⟨by omega, by omega⟩)]
    rw [if_pos (by simp only [kHeaderSize]; omega)]

theorem size_eq_dataView_length (b : ByteBuffer) : b.size = b.dataView.length := by
  simp [ByteBuffer.size, ByteBuffer.dataView]

/-- C10: `Codec::decode` either succeeds and consumes exactly
`28 + meta_len + bin_len` bytes from the buffer (the visible byte sequence
loses exactly the frame, and the visible size drops by exactly the frame
size), or fails — incomplete frame, bad magic/version, or over-cap lengths —
and consumes nothing, leaving the buffer unchanged. -/
theorem C10_decode_frame_effect (b : ByteBuffer) :
    (∀ p b', Codec.decode b = (some p, b') →
      kHeaderSize + p.header.meta_len + p.header.bin_len ≤ b.size ∧
      b'.dataView = b.dataView.drop (kHeaderSize + p.header.meta_len + p.header.bin_len) ∧
      b'.size = b.size - (kHeaderSize + p.header.meta_len + p.header.bin_len)) ∧
    (∀ b', Codec.decode b = (none, b') → b' = b) := by
  constructor
  · intro p b' hdec
    unfold Codec.decode at hdec
    cases hdf : Codec.decodeFrame b.dataView with
    | none => rw [hdf] at hdec; exact absurd hdec (by simp)
    | some pr =>
      obtain ⟨q, total⟩ := pr
      rw [hdf] at hdec
      simp only [Prod.mk.injEq, Option.some.injEq] at hdec
      obtain ⟨hq, hb'⟩ := hdec
      subst hq
      obtain ⟨htot, hle⟩ := decodeFrame_some hdf
      subst htot
      subst hb'
      refine ⟨by rw [size_eq_dataView_length]; exact hle, ?_, ?_⟩
      · exact dataView_consume b _ hle
      · rw [size_eq_dataView_length, size_eq_dataView_length,
          dataView_consume b _ hle, List.length_drop]
  · intro b' hdec
    unfold Codec.decode at hdec
    cases hdf : Codec.decodeFrame b.dataView with
    | none => rw [hdf] at hdec; simp only [Prod.mk.injEq] at hdec; exact hdec.2.symm
    | some pr => rw [hdf] at hdec; exact absurd hdec (by simp)

/-- C10 witness: evaluated on the encoding of a concrete 28-byte frame, decode
succeeds and consumes exactly the frame; on the empty buffer it fails and
leaves the buffer unchanged. -/
theorem C10_decode_frame_effect_witness :
    (ByteBuffer.mk (Codec.encode ⟨⟨kMagic, kVersion, 3, 0, 7, 0, 0⟩, [], []⟩) 0
      |> Codec.decode |>.2).dataView = [] ∧
    (Codec.decode ⟨[1, 2], 0⟩).2 = ⟨[1, 2], 0⟩ := by
  constructor
  · have h := (C10_decode_frame_effect
      (ByteBuffer.mk (Codec.encode ⟨⟨kMagic, kVersion, 3, 0, 7, 0, 0⟩, [], []⟩) 0)).1
    have hdec : Codec.decode
        (ByteBuffer.mk (Codec.encode ⟨⟨kMagic, kVersion, 3, 0, 7, 0, 0⟩, [], []⟩) 0) =
        (some ⟨⟨kMagic, kVersion, 3, 0, 7, 0, 0⟩, [], []⟩,
          (ByteBuffer.mk (Codec.encode ⟨⟨kMagic, kVersion, 3, 0, 7, 0, 0⟩, [], []⟩) 0).consume
            28) := by decide
    refine ((congrArg (fun x => x.2.dataView) hdec).trans
      ((h _ _ hdec).2.1)).trans ?_
    decide
  · have h := (C10_decode_frame_effect (⟨[1, 2], 0⟩ : ByteBuffer)).2
    exact h _ (by decide)


theorem consume_all (e : List Byte) (n : Nat) (h : n = e.length) (h0 : n ≠ 0) :
    (ByteBuffer.mk e 0).consume n = ⟨[], 0⟩ := by
  subst h
  simp only [ByteBuffer.consume, Nat.zero_add, Nat.min_self]
  rw [if_neg h0, if_pos ⟨by omega, trivial⟩]

/-- C1 counterexample: the packet whose header magic is 0 (version, type,
flags, request id, length fields all at their smallest values) has meta and
binary sizes within the declared caps — the claim's only well-formedness
requirement — yet decoding its encoding does not yield the packet back:
`Codec::decode` rejects the frame (wrong magic) and returns no packet,
consuming nothing. -/
theorem C1_counterexample :
    (([] : List Byte).length ≤ kMaxMetaSize ∧ ([] : List Byte).length ≤ kMaxBinarySize) ∧
    Codec.decode ⟨Codec.encode ⟨⟨0, kVersion, 0, 0, 0, 0, 0⟩, [], []⟩, 0⟩ =
      (none, ⟨Codec.encode ⟨⟨0, kVersion, 0, 0, 0, 0, 0⟩, [], []⟩, 0⟩) := by decide

/-- C1 (amended): for every well-formed packet — payload sizes within the
declared caps, and additionally (as the C++ type and field invariants give)
header fields within their integer ranges, magic/version equal to the
protocol constants, and header length fields consistent with the payloads —
decoding the byte string produced by `Codec::encode` succeeds, yields a packet
equal to the original, and consumes exactly the whole frame; and for every
strict prefix of the encoded frame, `Codec::decode` returns the need-more
outcome: no packet and nothing consumed. -/
theorem C1_encode_decode_roundtrip (p : Packet) (hwf : Codec.WellFormed p) :
    Codec.decode ⟨Codec.encode p, 0⟩ = (some p, ⟨[], 0⟩) ∧
    (∀ k, k < kHeaderSize + p.meta_json.length + p.binary.length →
      Codec.decode ⟨(Codec.encode p).take k, 0⟩ =
        (none, ⟨(Codec.encode p).take k, 0⟩)) := by
  have hE : Codec.encode p ++ [] = Codec.encode p := by simp
  have hlen : (Codec.encode p).length =
      28 + (p.meta_json.length + (p.binary.length + 0)) := by
    rw [← hE]; exact encode_append_length p []
  constructor
  · have hdf := decodeFrame_encode_append p [] hwf
    rw [hE] at hdf
    have hdv : (ByteBuffer.mk (Codec.encode p) 0).dataView = Codec.encode p := by
      simp [ByteBuffer.dataView]
    unfold Codec.decode
    rw [hdv, hdf]
    show (some p, (ByteBuffer.mk (Codec.encode p) 0).consume
        (kHeaderSize + p.meta_json.length + p.binary.length)) = (some p, ⟨[], 0⟩)
    rw [consume_all _ _ (by simp only [kHeaderSize]; omega) (by simp only [kHeaderSize]; omega)]
  · intro k hk
    have hdf := decodeFrame_encode_take p hwf k hk
    have hdv : (ByteBuffer.mk ((Codec.encode p).take k) 0).dataView =
        (Codec.encode p).take k := by
      simp [ByteBuffer.dataView]
    unfold Codec.decode
    rw [hdv, hdf]

/-- C1 witness: the amended round-trip evaluated on a concrete packet with
two metadata bytes and one binary byte, and the need-more outcome on its
30-byte strict prefix (the full frame is 31 bytes). -/
theorem C1_encode_decode_roundtrip_witness :
    Codec.WellFormed ⟨⟨kMagic, kVersion, 11, 0, 5, 2, 1⟩, [10, 20], [30]⟩ ∧
    Codec.decode ⟨Codec.encode ⟨⟨kMagic, kVersion, 11, 0, 5, 2, 1⟩, [10, 20], [30]⟩, 0⟩ =
      (some ⟨⟨kMagic, kVersion, 11, 0, 5, 2, 1⟩, [10, 20], [30]⟩, ⟨[], 0⟩) ∧
    Codec.decode ⟨(Codec.encode ⟨⟨kMagic, kVersion, 11, 0, 5, 2, 1⟩, [10, 20], [30]⟩).take 30,
        0⟩ =
      (none, ⟨(Codec.encode ⟨⟨kMagic, kVersion, 11, 0, 5, 2, 1⟩, [10, 20], [30]⟩).take 30, 0⟩) :=
  ⟨by decide,
   (C1_encode_decode_roundtrip ⟨⟨kMagic, kVersion, 11, 0, 5, 2, 1⟩, [10, 20], [30]⟩
     (by decide)).1,
   (C1_encode_decode_roundtrip ⟨⟨kMagic, kVersion, 11, 0, 5, 2, 1⟩, [10, 20], [30]⟩
     (by decide)).2 30 (by decide)⟩


/-! ## Session registry (`server/session/session_manager.h`, `.cpp`) -/

/-- `Session` from `session_manager.h`. -/
structure Session where
  fd : Int := -1
  logged_in : Bool := false
  user_id : String := ""
  nickname : String := ""
deriving Repr, DecidableEq

/-- First-match lookup in an association list, modelling
`std::unordered_map::find` (keys are unique in a map). -/
def mlookup {α β : Type} [DecidableEq α] : List (α × β) → α → Option β
  | [], _ => none
  | (k, v) :: rest, key => if k = key then some v else mlookup rest key

/-- `map[key] = value`: replace in place, or append when absent. -/
def mset {α β : Type} [DecidableEq α] : List (α × β) → α → β → List (α × β)
  | [], key, val => [(key, val)]
  | (k, v) :: rest, key, val =>
      if k = key then (key, val) :: rest else (k, v) :: mset rest key val

/-- `map.erase(key)`. -/
def merase {α β : Type} [DecidableEq α] : List (α × β) → α → List (α × β)
  | [], _ => []
  | (k, v) :: rest, key => if k = key then merase rest key else (k, v) :: merase rest key

/-- `SessionManager`: `fd → session` plus, for logged-in users,
`user_id → fd`. -/
structure SessionManager where
  sessions : List (Int × Session) := []
  user_to_fd : List (String × Int) := []
deriving Repr, DecidableEq

namespace SessionManager

/-- `SessionManager::addConnection`: `emplace` a fresh session slot (a no-op
when the fd is already present). -/
def addConnection (sm : SessionManager) (fd : Int) : SessionManager :=
  if (mlookup sm.sessions fd).isSome then sm
  else { sm with sessions := mset sm.sessions fd { fd := fd } }

/-- `SessionManager::removeConnection`: erase the session and, when it was
logged in under a non-empty user id, the `user_to_fd` entry. -/
def removeConnection (sm : SessionManager) (fd : Int) : SessionManager :=
  match mlookup sm.sessions fd with
  | none => sm
  | some s =>
      { sessions := merase sm.sessions fd
        user_to_fd :=
          if s.logged_in ∧ s.user_id ≠ "" then merase sm.user_to_fd s.user_id
          else sm.user_to_fd }

/-- `SessionManager::login`: fails when the fd has no session or the user is
already online under a different fd; otherwise marks the session logged in and
records `user_to_fd[user_id] = fd`.  Returns `(ok, error, registry)`. -/
def login (sm : SessionManager) (fd : Int) (user_id nickname : String) :
    Bool × String × SessionManager :=
  match mlookup sm.sessions fd with
  | none => (false, "session not found", sm)
  | some s =>
      match mlookup sm.user_to_fd user_id with
      | some existing_fd =>
          if existing_fd ≠ fd then (false, "user already online", sm)
          else (true, "",
            { sessions := mset sm.sessions fd
                { s with logged_in := true, user_id := user_id, nickname := nickname }
              user_to_fd := mset sm.user_to_fd user_id fd })
      | none => (true, "",
          { sessions := mset sm.sessions fd
              { s with logged_in := true, user_id := user_id, nickname := nickname }
            user_to_fd := mset sm.user_to_fd user_id fd })

/-- `SessionManager::logout`. -/
def logout (sm : SessionManager) (fd : Int) : SessionManager :=
  match mlookup sm.sessions fd with
  | none => sm
  | some s =>
      { sessions := mset sm.sessions fd
          { s with logged_in := false, user_id := "", nickname := "" }
        user_to_fd :=
          if s.logged_in ∧ s.user_id ≠ "" then merase sm.user_to_fd s.user_id
          else sm.user_to_fd }

end SessionManager

/-- The reply `TcpServer::handleLogin` sends after the auth service accepted
the credentials: either `AuthError` with a machine code, or `AuthOk`. -/
inductive LoginReply where
  | authError (code message : String)
  | authOk (user_id nickname : String)
deriving Repr, DecidableEq

/-- The tail of `TcpServer::handleLogin` (`tcp_server.cpp`), after
`auth_service_.loginUser` succeeded: try the registry login; on failure send
`AuthError` with code `LOGIN_FAILED` and the registry's message, on success
send `AuthOk`. -/
def handleLoginSession (sm : SessionManager) (fd : Int) (user_id nickname : String) :
    SessionManager × LoginReply :=
  match SessionManager.login sm fd user_id nickname with
  | (false, err, sm') => (sm', .authError "LOGIN_FAILED" err)
  | (true, _, sm') => (sm', .authOk user_id nickname)

/-- The invariant the specification states for the registry (§8.4 of the
spec): `user_to_fd[uid] = fd` holds exactly when the session at `fd` is
logged in as `uid`. -/
def RegistryAgrees (sm : SessionManager) : Prop :=
  (∀ uid fd, mlookup sm.user_to_fd uid = some fd →
    ∃ s, mlookup sm.sessions fd = some s ∧ s.logged_in = true ∧ s.user_id = uid) ∧
  (∀ fd s, mlookup sm.sessions fd = some s → s.logged_in = true →
    mlookup sm.user_to_fd s.user_id = some fd)

/-- C6: when a user is already online under `fd₀` and a login attempt for the
same `user_id` arrives on a different `fd` that has a session slot, the
registry's `login` returns failure with message "user already online", the
registry (hence the prior session's mapping) is left unchanged, and the
dispatcher answers the new connection with an `AuthError` envelope carrying
code `LOGIN_FAILED` — the prior session is not evicted. -/
theorem C6_double_login_rejected (sm : SessionManager) (fd fd0 : Int)
    (user_id nickname : String) (s : Session)
    (hprior : mlookup sm.user_to_fd user_id = some fd0)
    (hdiff : fd ≠ fd0)
    (hsess : mlookup sm.sessions fd = some s) :
    SessionManager.login sm fd user_id nickname = (false, "user already online", sm) ∧
    handleLoginSession sm fd user_id nickname =
      (sm, .authError "LOGIN_FAILED" "user already online") := by
  have hlogin : SessionManager.login sm fd user_id nickname =
      (false, "user already online", sm) := by
    unfold SessionManager.login
    rw [hsess, hprior]
    simp only
    rw [if_pos (by omega)]
  refine ⟨hlogin, ?_⟩
  unfold handleLoginSession
  rw [hlogin]

/-- C6 witness: alice is logged in on fd 1; a second login for alice on fd 2
is rejected with `LOGIN_FAILED` and the registry keeps alice on fd 1. -/
theorem C6_double_login_rejected_witness :
    SessionManager.login
      ⟨[(1, ⟨1, true, "alice", "A"⟩), (2, ⟨2, false, "", ""⟩)], [("alice", 1)]⟩
      2 "alice" "A2" =
      (false, "user already online",
        ⟨[(1, ⟨1, true, "alice", "A"⟩), (2, ⟨2, false, "", ""⟩)], [("alice", 1)]⟩) ∧
    handleLoginSession
      ⟨[(1, ⟨1, true, "alice", "A"⟩), (2, ⟨2, false, "", ""⟩)], [("alice", 1)]⟩
      2 "alice" "A2" =
      (⟨[(1, ⟨1, true, "alice", "A"⟩), (2, ⟨2, false, "", ""⟩)], [("alice", 1)]⟩,
        .authError "LOGIN_FAILED" "user already online") :=
  C6_double_login_rejected
    ⟨[(1, ⟨1, true, "alice", "A"⟩), (2, ⟨2, false, "", ""⟩)], [("alice", 1)]⟩
    2 1 "alice" "A2" ⟨2, false, "", ""⟩ (by decide) (by decide) (by decide)

/-- C7: the registry invariant FAILS on the code.  Failing operation
sequence: `addConnection 1; login(1, "a"); login(1, "b")`.  The second login
on the same fd succeeds (the fd is not mapped under "b"), overwrites the
session's user to "b", but never erases the stale `user_to_fd["a"] = 1`
entry, so `user_to_fd["a"]` exists while the session at fd 1 is logged in as
"b" — the claimed iff is violated.  (Reachable through the dispatcher:
`handleLogin` never checks that the session is already logged in.) -/
theorem C7_registry_invariant_code_bug :
    (SessionManager.login
        ((SessionManager.login (SessionManager.addConnection ⟨[], []⟩ 1) 1 "a" "A").2.2)
        1 "b" "B").1 = true ∧
    mlookup (SessionManager.login
        ((SessionManager.login (SessionManager.addConnection ⟨[], []⟩ 1) 1 "a" "A").2.2)
        1 "b" "B").2.2.user_to_fd "a" = some 1 ∧
    mlookup (SessionManager.login
        ((SessionManager.login (SessionManager.addConnection ⟨[], []⟩ 1) 1 "a" "A").2.2)
        1 "b" "B").2.2.sessions 1 = some ⟨1, true, "b", "B"⟩ ∧
    ¬ RegistryAgrees (SessionManager.login
        ((SessionManager.login (SessionManager.addConnection ⟨[], []⟩ 1) 1 "a" "A").2.2)
        1 "b" "B").2.2 := by
  refine ⟨by decide, by decide, by decide, ?_⟩
  intro h
  obtain ⟨s, hs, hl, hu⟩ := h.1 "a" 1 (by decide)
  have : s = ⟨1, true, "b", "B"⟩ := by
    have he : mlookup (SessionManager.login
        ((SessionManager.login (SessionManager.addConnection ⟨[], []⟩ 1) 1 "a" "A").2.2)
        1 "b" "B").2.2.sessions 1 = some ⟨1, true, "b", "B"⟩ := by decide
    rw [he] at hs
    exact (Option.some.inj hs).symm
  subst this
  simp at hu


/-! ## Message service (`server/services/message_service.cpp`) and the
`messages` / `message_targets` tables (`database.cpp` schema) -/

/-- A `messages` row.  `message_id` is `INTEGER PRIMARY KEY AUTOINCREMENT`. -/
structure MessageRow where
  message_id : Nat
  conversation_type : String
  conversation_id : String
  sender_id : String
  sender_nickname : String
  content : String
  created_at : Int
deriving Repr, DecidableEq

/-- A `message_targets` row; `PRIMARY KEY (message_id, user_id)`,
`delivered_at` nullable. -/
structure MessageTargetRow where
  message_id : Nat
  user_id : String
  delivered_at : Option Int
deriving Repr, DecidableEq

/-- `MessageInput` from `message_service.h`. -/
structure MessageInput where
  conversation_type : String
  conversation_id : String
  sender_id : String
  sender_nickname : String
  content : String
deriving Repr, DecidableEq

/-- `StoredMessage` from `message_service.h`. -/
structure StoredMessage where
  message_id : Nat
  conversation_type : String
  conversation_id : String
  sender_id : String
  sender_nickname : String
  content : String
  created_at : Int
deriving Repr, DecidableEq

/-- The two message tables plus the AUTOINCREMENT cursor that yields the next
`message_id`. -/
structure MessageDB where
  next_message_id : Nat := 1
  messages : List MessageRow := []
  message_targets : List MessageTargetRow := []
deriving Repr, DecidableEq

/-- The target-insert loop of `storeMessage`: one
`INSERT INTO message_targets(message_id, user_id, delivered_at) VALUES(?,?,NULL)`
per recipient; an insert violating the `(message_id, user_id)` primary key
makes `sqlite3_step` fail, which aborts the loop (and rolls the transaction
back). -/
def insertTargets (targets : List MessageTargetRow) (mid : Nat) :
    List String → Option (List MessageTargetRow)
  | [] => some targets
  | uid :: rest =>
      if targets.any (fun t => t.message_id == mid && t.user_id == uid) then none
      else insertTargets (targets ++ [⟨mid, uid, none⟩]) mid rest

/-- `MessageService::storeMessage`: in one transaction, insert the message row
(the store assigns `message_id` and the service stamps `created_at = now`),
then one target row per recipient with `delivered_at` NULL; on any failure the
transaction is rolled back and the original tables are returned unchanged. -/
def storeMessage (db : MessageDB) (now : Int) (input : MessageInput)
    (recipients : List String) : MessageDB × Option StoredMessage :=
  if recipients.isEmpty then (db, none)
  else
    let mid := db.next_message_id
    match insertTargets db.message_targets mid recipients with
    | none => (db, none)
    | some targets =>
        (⟨mid + 1,
          db.messages ++ [⟨mid, input.conversation_type, input.conversation_id,
            input.sender_id, input.sender_nickname, input.content, now⟩],
          targets⟩,
         some ⟨mid, input.conversation_type, input.conversation_id, input.sender_id,
           input.sender_nickname, input.content, now⟩)

theorem insertTargets_spec (mid : Nat) :
    ∀ (recips : List String) (targets res : List MessageTargetRow),
      insertTargets targets mid recips = some res →
      res = targets ++ recips.map (fun u => MessageTargetRow.mk mid u none) ∧
      recips.Nodup ∧
      ∀ u, targets.any (fun t => t.message_id == mid && t.user_id == u) = true →
        u ∉ recips := by
  intro recips
  induction recips with
  | nil =>
    intro targets res h
    simp only [insertTargets, Option.some.injEq] at h
    subst h
    simp
  | cons u rest ih =>
    intro targets res h
    simp only [insertTargets] at h
    split_ifs at h with hany
    obtain ⟨hres, hnodup, haux⟩ := ih (targets ++ [⟨mid, u, none⟩]) res h
    have hmem : ∀ w, targets.any (fun t => t.message_id == mid && t.user_id == w) = true →
        w ∉ u :: rest := by
      intro w hw
      have hwu : w ≠ u := by
        intro hwu
        subst hwu
        exact absurd hw (by simp [hany])
      have hwrest : w ∉ rest := by
        apply haux
        rw [List.any_append]
        simp [hw]
      simp [hwu, hwrest]
    refine ⟨?_, ?_, hmem⟩
    · rw [hres, List.append_assoc]
      simp
    · have hu : u ∉ rest := by
        apply haux u
        rw [List.any_append]
        simp [insertTargets]
      exact List.nodup_cons.mpr ⟨hu, hnodup⟩

/-- C2: a successful `storeMessage` call, in one transaction, appends exactly
one message row — carrying the store-assigned `message_id` (the AUTOINCREMENT
cursor) and the service clock `created_at` — and exactly one `MessageTarget`
row per recipient with `delivered_at` NULL; a successful call implies the
recipient list was duplicate-free (a duplicate violates the target table's
primary key and rolls the whole transaction back), so this is one row per
distinct recipient, and the rows with the new `message_id` are exactly the
recipients.  On any failure the returned tables are the original ones: message
row and target rows are never observable separately. -/
theorem C2_storeMessage_atomic_targets (db : MessageDB) (now : Int)
    (input : MessageInput) (recipients : List String)
    (hfresh : ∀ t ∈ db.message_targets, t.message_id < db.next_message_id) :
    (∀ db' stored, storeMessage db now input recipients = (db', some stored) →
      recipients ≠ [] ∧ recipients.Nodup ∧
      stored = ⟨db.next_message_id, input.conversation_type, input.conversation_id,
        input.sender_id, input.sender_nickname, input.content, now⟩ ∧
      db'.messages = db.messages ++ [⟨db.next_message_id, input.conversation_type,
        input.conversation_id, input.sender_id, input.sender_nickname,
        input.content, now⟩] ∧
      db'.message_targets = db.message_targets ++
        recipients.map (fun u => MessageTargetRow.mk db.next_message_id u none) ∧
      (db'.message_targets.filter
          (fun t => t.message_id == db.next_message_id)).map (fun t => t.user_id) =
        recipients ∧
      (∀ t ∈ db'.message_targets, t.message_id = db.next_message_id →
        t.delivered_at = none)) ∧
    (∀ db', storeMessage db now input recipients = (db', none) → db' = db) := by
  constructor
  · intro db' stored h
    unfold storeMessage at h
    split_ifs at h with hemp
    · simp only [Prod.mk.injEq] at h
      exact absurd h.2 (by simp)
    cases hins : insertTargets db.message_targets db.next_message_id recipients with
    | none =>
      simp only [hins, Prod.mk.injEq] at h
      exact absurd h.2 (by simp)
    | some targets =>
      simp only [hins, Prod.mk.injEq, Option.some.injEq] at h
      obtain ⟨hdb, hstored⟩ := h
      obtain ⟨hres, hnodup, _⟩ := insertTargets_spec db.next_message_id recipients
        db.message_targets targets hins
      subst hdb
      have hne : recipients ≠ [] := by
        intro hnil; rw [hnil] at hemp; exact absurd rfl hemp
      refine ⟨hne, hnodup, hstored.symm, rfl, by rw [hres], ?_, ?_⟩
      · show (targets.filter (fun t => t.message_id == db.next_message_id)).map
            (fun t => t.user_id) = recipients
        rw [hres, List.filter_append]
        have hold : db.message_targets.filter
            (fun t => t.message_id == db.next_message_id) = [] := by
          rw [List.filter_eq_nil_iff]
          intro t ht
          have := hfresh t ht
          simp only [beq_iff_eq]
          omega
        have hnew : (recipients.map
              (fun u => MessageTargetRow.mk db.next_message_id u none)).filter
            (fun t => t.message_id == db.next_message_id) =
            recipients.map (fun u => MessageTargetRow.mk db.next_message_id u none) := by
          rw [List.filter_eq_self]
          intro t ht
          obtain ⟨u, _, hu⟩ := List.mem_map.mp ht
          rw [← hu]
          simp
        rw [hold, hnew, List.nil_append, List.map_map]
        have hid : ((fun t : MessageTargetRow => t.user_id) ∘
            fun u => MessageTargetRow.mk db.next_message_id u none) = fun u => u := rfl
        rw [hid]
        simp
      · show ∀ t ∈ targets, t.message_id = db.next_message_id → t.delivered_at = none
        intro t ht hmid
        rw [hres] at ht
        rcases List.mem_append.mp ht with hin | hin
        · have := hfresh t hin
          omega
        · obtain ⟨u, _, hu⟩ := List.mem_map.mp hin
          rw [← hu]
  · intro db' h
    unfold storeMessage at h
    split_ifs at h with hemp
    · simp only [Prod.mk.injEq] at h
      exact h.1.symm
    · cases hins : insertTargets db.message_targets db.next_message_id recipients with
      | none =>
        simp only [hins, Prod.mk.injEq] at h
        exact h.1.symm
      | some targets =>
        simp only [hins, Prod.mk.injEq] at h
        exact absurd h.2 (by simp)

/-- C2 witness: storing a message for recipients [bob, carol] on an empty
store yields message id 1, both target rows with `delivered_at` NULL, and a
duplicate-recipient call rolls back, returning the store unchanged. -/
theorem C2_storeMessage_atomic_targets_witness :
    ((⟨2, [⟨1, "private", "bob", "alice", "A", "hi", 5⟩],
        [⟨1, "bob", none⟩]⟩ : MessageDB).message_targets.filter
      (fun t => t.message_id == 1)).map (fun t => t.user_id) = ["bob"] ∧
    (storeMessage ⟨1, [], []⟩ 5 ⟨"private", "bob", "alice", "A", "hi"⟩
        ["bob", "bob"]).1 = ⟨1, [], []⟩ := by
  constructor
  · exact ((C2_storeMessage_atomic_targets ⟨1, [], []⟩ 5
      ⟨"private", "bob", "alice", "A", "hi"⟩ ["bob"] (by decide)).1
      ⟨2, [⟨1, "private", "bob", "alice", "A", "hi", 5⟩], [⟨1, "bob", none⟩]⟩
      ⟨1, "private", "bob", "alice", "A", "hi", 5⟩ (by decide)).2.2.2.2.2.1
  · exact (C2_storeMessage_atomic_targets ⟨1, [], []⟩ 5
      ⟨"private", "bob", "alice", "A", "hi"⟩ ["bob", "bob"] (by decide)).2
      ⟨1, [], []⟩ (by decide)


/-! ## Group service (`server/services/group_service.cpp`) and the
`groups` / `group_members` tables -/

/-- A `groups` row. -/
structure GroupRow where
  group_id : String
  name : String
  owner_id : String
  created_at : Int
deriving Repr, DecidableEq

/-- A `group_members` row; `PRIMARY KEY (group_id, user_id)`. -/
structure GroupMemberRow where
  group_id : String
  user_id : String
  role : String
  joined_at : Int
deriving Repr, DecidableEq

/-- The group tables. -/
structure GroupDB where
  groups : List GroupRow := []
  group_members : List GroupMemberRow := []
deriving Repr, DecidableEq

/-- `GroupService::getUserRole`:
`SELECT role FROM group_members WHERE group_id = ? AND user_id = ?`;
`none` is the "user not in group" error. -/
def getUserRole (gdb : GroupDB) (user_id group_id : String) : Option String :=
  (gdb.group_members.find? (fun m => m.group_id == group_id && m.user_id == user_id)).map
    (fun m => m.role)

/-- `GroupService::getGroupMembers`:
`SELECT user_id FROM group_members WHERE group_id = ?`. -/
def getGroupMembers (gdb : GroupDB) (group_id : String) : List String :=
  (gdb.group_members.filter (fun m => m.group_id == group_id)).map (fun m => m.user_id)

/-- `GroupService::dissolveGroup`: only the owner may dissolve
(`isOwnerOrAdmin` first rejects non-members / plain members with
"permission denied", then a non-owner admin gets "only owner can dissolve
group"); the owner's call runs one transaction that deletes the group
messages' target rows, those messages, the member rows, and the group row.
Returns the updated stores and `none`, or the untouched stores and an
error. -/
def dissolveGroup (gdb : GroupDB) (db : MessageDB) (actor group_id : String) :
    (GroupDB × MessageDB) × Option String :=
  match getUserRole gdb actor group_id with
  | none => ((gdb, db), some "user not in group")
  | some role =>
      if role == "owner" then
        let group_message_ids :=
          (db.messages.filter
            (fun m => m.conversation_type == "group" && m.conversation_id == group_id)).map
            (fun m => m.message_id)
        ((⟨gdb.groups.filter (fun g => !(g.group_id == group_id)),
           gdb.group_members.filter (fun m => !(m.group_id == group_id))⟩,
          ⟨db.next_message_id,
           db.messages.filter
             (fun m => !(m.conversation_type == "group" && m.conversation_id == group_id)),
           db.message_targets.filter
             (fun t => !(group_message_ids.contains t.message_id))⟩),
         none)
      else if role == "admin" then ((gdb, db), some "only owner can dissolve group")
      else ((gdb, db), some "permission denied")

/-- C8: `dissolveGroup` succeeds only for an actor whose role is `owner`
(any other actor — non-member, member, admin — receives an error with both
stores unchanged), and a successful dissolve atomically (in the single
returned transaction result) removes every `Group` row of G, every
`GroupMember` row of G, every group message of G, and every `MessageTarget`
row of those messages. -/
theorem C8_dissolve_owner_only_cascade (gdb : GroupDB) (db : MessageDB)
    (actor group_id : String) :
    (getUserRole gdb actor group_id ≠ some "owner" →
      (dissolveGroup gdb db actor group_id).1 = (gdb, db) ∧
      (dissolveGroup gdb db actor group_id).2.isSome = true) ∧
    (getUserRole gdb actor group_id = some "owner" →
      (dissolveGroup gdb db actor group_id).2 = none ∧
      (∀ g ∈ (dissolveGroup gdb db actor group_id).1.1.groups, g.group_id ≠ group_id) ∧
      (∀ m ∈ (dissolveGroup gdb db actor group_id).1.1.group_members,
        m.group_id ≠ group_id) ∧
      (∀ m ∈ (dissolveGroup gdb db actor group_id).1.2.messages,
        ¬(m.conversation_type = "group" ∧ m.conversation_id = group_id)) ∧
      (∀ t ∈ (dissolveGroup gdb db actor group_id).1.2.message_targets,
        ∀ m ∈ db.messages, m.conversation_type = "group" →
          m.conversation_id = group_id → t.message_id ≠ m.message_id)) := by
  constructor
  · intro hrole
    unfold dissolveGroup
    cases hr : getUserRole gdb actor group_id with
    | none => exact ⟨rfl, by trivial⟩
    | some role =>
      rw [hr] at hrole
      have hro : (role == "owner") = false := by
        rw [beq_eq_false_iff_ne]
        intro hcontra
        apply hrole
        rw [hcontra]
      simp only [hro, Bool.false_eq_true, if_false]
      split_ifs with ha
      · exact ⟨rfl, by trivial⟩
      · exact ⟨rfl, by trivial⟩
  · intro hrole
    unfold dissolveGroup
    rw [hrole]
    simp only [beq_self_eq_true, if_true]
    refine ⟨by trivial, ?_, ?_, ?_, ?_⟩
    · intro g hg
      have := List.of_mem_filter hg
      simpa using this
    · intro m hm
      have := List.of_mem_filter hm
      simpa using this
    · intro m hm hc
      have hmf := List.of_mem_filter hm
      simp [hc.1, hc.2] at hmf
    · intro t ht m hm hct hci heq
      have hfl := List.of_mem_filter ht
      have hmem : t.message_id ∈ (db.messages.filter
          (fun m => m.conversation_type == "group" && m.conversation_id == group_id)).map
          (fun m => m.message_id) := by
        apply List.mem_map.mpr
        refine ⟨m, ?_, heq.symm⟩
        apply List.mem_filter.mpr
        exact ⟨hm, by simp [hct, hci]⟩
      rw [List.contains_eq_any_beq] at hfl
      have hany : (((db.messages.filter
          (fun m => m.conversation_type == "group" && m.conversation_id == group_id)).map
          (fun m => m.message_id)).any (fun x => t.message_id == x)) = true := by
        apply List.any_eq_true.mpr
        exact ⟨t.message_id, hmem, by simp⟩
      rw [hany] at hfl
      exact absurd hfl (by simp)

/-- C8 witness: a member actor is rejected with the stores unchanged; the
owner's dissolve empties the group's rows on a concrete populated store. -/
theorem C8_dissolve_owner_only_cascade_witness :
    ((dissolveGroup ⟨[⟨"g", "G", "o", 0⟩], [⟨"g", "o", "owner", 0⟩, ⟨"g", "m", "member", 1⟩]⟩
        ⟨3, [⟨1, "group", "g", "o", "O", "hi", 2⟩], [⟨1, "m", none⟩]⟩ "m" "g").1 =
      (⟨[⟨"g", "G", "o", 0⟩], [⟨"g", "o", "owner", 0⟩, ⟨"g", "m", "member", 1⟩]⟩,
       ⟨3, [⟨1, "group", "g", "o", "O", "hi", 2⟩], [⟨1, "m", none⟩]⟩)) ∧
    (∀ g ∈ (dissolveGroup ⟨[⟨"g", "G", "o", 0⟩],
        [⟨"g", "o", "owner", 0⟩, ⟨"g", "m", "member", 1⟩]⟩
        ⟨3, [⟨1, "group", "g", "o", "O", "hi", 2⟩], [⟨1, "m", none⟩]⟩ "o" "g").1.1.groups,
      g.group_id ≠ "g") := by
  constructor
  · exact ((C8_dissolve_owner_only_cascade ⟨[⟨"g", "G", "o", 0⟩],
      [⟨"g", "o", "owner", 0⟩, ⟨"g", "m", "member", 1⟩]⟩
      ⟨3, [⟨1, "group", "g", "o", "O", "hi", 2⟩], [⟨1, "m", none⟩]⟩ "m" "g").1
      (by decide)).1
  · exact ((C8_dissolve_owner_only_cascade ⟨[⟨"g", "G", "o", 0⟩],
      [⟨"g", "o", "owner", 0⟩, ⟨"g", "m", "member", 1⟩]⟩
      ⟨3, [⟨1, "group", "g", "o", "O", "hi", 2⟩], [⟨1, "m", none⟩]⟩ "o" "g").2
      (by decide)).2.1


/-! ## Dispatcher recipient resolution for group messages and group file
offers (`tcp_server.cpp`, `handleMessage` / `handleFile`) -/

/-- Outcome of the group branch of `TcpServer::handleMessage`. -/
inductive SendOutcome where
  | err (code : String)
  | ok (message_id : Nat) (created_at : Int)
deriving Repr, DecidableEq

/-- The group-conversation branch of `TcpServer::handleMessage`: look up the
sender's role (failure → `NOT_IN_GROUP`), read the member list, erase every
occurrence of the sender (`std::remove`), fail with `NO_RECIPIENTS` when the
remainder is empty, otherwise store the message for exactly that remainder. -/
def handleGroupMessage (gdb : GroupDB) (db : MessageDB) (now : Int)
    (sender sender_nick group_id content : String) : MessageDB × SendOutcome :=
  match getUserRole gdb sender group_id with
  | none => (db, .err "NOT_IN_GROUP")
  | some _ =>
      let recipients := (getGroupMembers gdb group_id).filter (fun u => u != sender)
      if recipients.isEmpty then (db, .err "NO_RECIPIENTS")
      else
        match storeMessage db now ⟨"group", group_id, sender, sender_nick, content⟩
            recipients with
        | (db', some stored) => (db', .ok stored.message_id stored.created_at)
        | (db', none) => (db', .err "STORE_FAILED")

/-- The group-conversation branch of `TcpServer::handleFile` for a
`FileOffer`: the recipient set is the member list as-is — the uploader is not
removed. -/
def resolveGroupFileRecipients (gdb : GroupDB) (uploader group_id : String) :
    Option (List String) :=
  match getUserRole gdb uploader group_id with
  | none => none
  | some _ => some (getGroupMembers gdb group_id)

/-- C9: for a group `MessageSend`, the dispatcher's recipient set is the
member list with every occurrence of the sender removed, so on a successful
store the new message's target rows never include the sender; when the sender
is the group's only member the reply is `NO_RECIPIENTS` and the message store
is unchanged (nothing stored); and a group `FileOffer` does not remove the
uploader — a member uploader is in its own recipient set. -/
theorem C9_group_recipients_exclude_sender (gdb : GroupDB) (db : MessageDB) (now : Int)
    (sender sender_nick group_id content : String)
    (hfresh : ∀ t ∈ db.message_targets, t.message_id < db.next_message_id) :
    (∀ db' mid ca, handleGroupMessage gdb db now sender sender_nick group_id content =
        (db', .ok mid ca) →
      mid = db.next_message_id ∧
      ∀ t ∈ db'.message_targets, t.message_id = mid → t.user_id ≠ sender) ∧
    (getUserRole gdb sender group_id ≠ none →
      getGroupMembers gdb group_id = [sender] →
      handleGroupMessage gdb db now sender sender_nick group_id content =
        (db, .err "NO_RECIPIENTS")) ∧
    (∀ recips, resolveGroupFileRecipients gdb sender group_id = some recips →
      recips = getGroupMembers gdb group_id ∧
      (sender ∈ getGroupMembers gdb group_id → sender ∈ recips)) := by
  refine ⟨?_, ?_, ?_⟩
  · intro db' mid ca h
    unfold handleGroupMessage at h
    cases hr : getUserRole gdb sender group_id with
    | none =>
      rw [hr] at h
      simp only [Prod.mk.injEq] at h
      exact absurd h.2 (by simp)
    | some role =>
      rw [hr] at h
      simp only at h
      split_ifs at h with hemp
      · simp only [Prod.mk.injEq] at h
        exact absurd h.2 (by simp)
      · cases hst : storeMessage db now ⟨"group", group_id, sender, sender_nick, content⟩
            ((getGroupMembers gdb group_id).filter (fun u => u != sender)) with
        | mk dbs res =>
          cases res with
          | none =>
            rw [hst] at h
            simp only [Prod.mk.injEq] at h
            exact absurd h.2 (by simp)
          | some stored =>
            rw [hst] at h
            simp only [Prod.mk.injEq, SendOutcome.ok.injEq] at h
            obtain ⟨hdb, hmid, hca⟩ := h
            subst hdb
            obtain ⟨_, _, hstored, _, htargets, _, _⟩ :=
              (C2_storeMessage_atomic_targets db now
                ⟨"group", group_id, sender, sender_nick, content⟩
                ((getGroupMembers gdb group_id).filter (fun u => u != sender))
                hfresh).1 _ stored hst
            have hmid2 : mid = db.next_message_id := by
              rw [← hmid, hstored]
            refine ⟨hmid2, ?_⟩
            intro t ht htm
            rw [htargets] at ht
            rcases List.mem_append.mp ht with hin | hin
            · have := hfresh t hin
              omega
            · obtain ⟨u, hu, hut⟩ := List.mem_map.mp hin
              have hus : u ≠ sender := by
                have := List.of_mem_filter hu
                simpa using this
              rw [← hut]
              exact hus
  · intro hin hmem
    unfold handleGroupMessage
    cases hr : getUserRole gdb sender group_id with
    | none => exact absurd hr hin
    | some role =>
      simp only
      rw [hmem]
      rw [if_pos (by simp)]
  · intro recips h
    unfold resolveGroupFileRecipients at h
    cases hr : getUserRole gdb sender group_id with
    | none => rw [hr] at h; exact absurd h (by simp)
    | some role =>
      rw [hr] at h
      simp only [Option.some.injEq] at h
      subst h
      exact ⟨rfl, fun hm => hm⟩

/-- C9 witness: in a two-member group {o, m}, o's message goes only to m
(no target row for o); in a singleton group {o}, o's send is rejected with
`NO_RECIPIENTS` and the store is unchanged; o's file offer to {o, m} keeps o
in the recipient set. -/
theorem C9_group_recipients_exclude_sender_witness :
    (∀ t ∈ (handleGroupMessage
        ⟨[⟨"g", "G", "o", 0⟩], [⟨"g", "o", "owner", 0⟩, ⟨"g", "m", "member", 1⟩]⟩
        ⟨1, [], []⟩ 9 "o" "O" "g" "hi").1.message_targets,
      t.message_id = 1 → t.user_id ≠ "o") ∧
    handleGroupMessage ⟨[⟨"s", "S", "o", 0⟩], [⟨"s", "o", "owner", 0⟩]⟩
        ⟨1, [], []⟩ 9 "o" "O" "s" "hi" = (⟨1, [], []⟩, .err "NO_RECIPIENTS") ∧
    resolveGroupFileRecipients
        ⟨[⟨"g", "G", "o", 0⟩], [⟨"g", "o", "owner", 0⟩, ⟨"g", "m", "member", 1⟩]⟩
        "o" "g" = some ["o", "m"] := by
  refine ⟨?_, ?_, by decide⟩
  · intro t ht htm
    exact ((C9_group_recipients_exclude_sender
      ⟨[⟨"g", "G", "o", 0⟩], [⟨"g", "o", "owner", 0⟩, ⟨"g", "m", "member", 1⟩]⟩
      ⟨1, [], []⟩ 9 "o" "O" "g" "hi" (by decide)).1
      (handleGroupMessage
        ⟨[⟨"g", "G", "o", 0⟩], [⟨"g", "o", "owner", 0⟩, ⟨"g", "m", "member", 1⟩]⟩
        ⟨1, [], []⟩ 9 "o" "O" "g" "hi").1 1 9 (by decide)).2 t ht htm
  · exact (C9_group_recipients_exclude_sender
      ⟨[⟨"s", "S", "o", 0⟩], [⟨"s", "o", "owner", 0⟩]⟩
      ⟨1, [], []⟩ 9 "o" "O" "s" "hi" (by decide)).2.1 (by decide) (by decide)


/-! ## File service (`server/services/file_service.cpp`) with the `files`,
`file_uploads`, `file_targets` tables and the on-disk temp/storage files -/

/-- A `files` row (`file_id` is the primary key). -/
structure FileRow where
  file_id : String
  uploader_id : String
  uploader_nickname : String
  conversation_type : String
  conversation_id : String
  file_name : String
  file_size : Int
  sha256 : String
  storage_path : String
  created_at : Int
deriving Repr, DecidableEq

/-- A `file_uploads` row (`file_id` is the primary key); exists iff the file
is not yet finalized. -/
structure FileUploadRow where
  file_id : String
  uploader_id : String
  temp_path : String
  uploaded_size : Int
  status : String
  updated_at : Int
deriving Repr, DecidableEq

/-- A `file_targets` row; `PRIMARY KEY (file_id, user_id)`. -/
structure FileTargetRow where
  file_id : String
  user_id : String
  delivered_at : Option Int
deriving Repr, DecidableEq

/-- `FileOffer` from `file_service.h`. -/
structure FileOffer where
  file_id : String := ""
  conversation_type : String
  conversation_id : String
  file_name : String
  file_size : Int := 0
  sha256 : String
  uploader_id : String
  uploader_nickname : String
  recipients : List String
deriving Repr, DecidableEq

/-- `UploadInfo` from `file_service.h`. -/
structure UploadInfo where
  file_id : String
  temp_path : String
  storage_path : String
  conversation_type : String
  conversation_id : String
  file_name : String
  file_size : Int := 0
  uploaded_size : Int := 0
  sha256 : String
  uploader_id : String
  uploader_nickname : String
  created_at : Int := 0
deriving Repr, DecidableEq

/-- `FileNotice` from `file_service.h`. -/
structure FileNotice where
  file_id : String
  conversation_type : String
  conversation_id : String
  file_name : String
  file_size : Int := 0
  sha256 : String
  uploader_id : String
  uploader_nickname : String
  storage_path : String
  created_at : Int := 0
deriving Repr, DecidableEq

/-- The file tables plus the file system visible to the service (path ↦
bytes). -/
structure FileStore where
  files : List FileRow := []
  file_uploads : List FileUploadRow := []
  file_targets : List FileTargetRow := []
  disk : List (String × List Byte) := []
deriving Repr, DecidableEq

/-- The service's directories and declared chunk size
(`files_dir_`, `temp_dir_`, `chunk_size_`). -/
structure FileServiceCfg where
  files_dir : String
  temp_dir : String
  chunk_size : Int
deriving Repr, DecidableEq

/-- `sanitizeFileName` from `file_service.cpp`: keep `[A-Za-z0-9._-]`,
replace every other byte with `_`; an empty result becomes `"file"`. -/
def sanitizeFileName (name : String) : String :=
  let sanitized := String.mk (name.data.map (fun ch =>
    if ('a' ≤ ch ∧ ch ≤ 'z') ∨ ('A' ≤ ch ∧ ch ≤ 'Z') ∨ ('0' ≤ ch ∧ ch ≤ '9') ∨
        ch = '.' ∨ ch = '_' ∨ ch = '-' then ch else '_'))
  if sanitized.isEmpty then "file" else sanitized

/-- The temp path `temp_dir/<file_id>.part`. -/
def tempPathFor (cfg : FileServiceCfg) (file_id : String) : String :=
  cfg.temp_dir ++ "/" ++ file_id ++ ".part"

/-- The storage path `files_dir/<file_id>_<sanitized_name>`. -/
def storagePathFor (cfg : FileServiceCfg) (file_id file_name : String) : String :=
  cfg.files_dir ++ "/" ++ file_id ++ "_" ++ sanitizeFileName file_name

/-- `SELECT ... FROM files WHERE file_id = ?`. -/
def findFile (fs : FileStore) (file_id : String) : Option FileRow :=
  fs.files.find? (fun f => f.file_id == file_id)

/-- `SELECT ... FROM file_uploads WHERE file_id = ?` (also
`FileService::isUploading`). -/
def findUpload (fs : FileStore) (file_id : String) : Option FileUploadRow :=
  fs.file_uploads.find? (fun u => u.file_id == file_id)

/-- `FileService::getUploadInfo`: the join of `files` and `file_uploads` on
`file_id`; `none` is the "upload not found" error. -/
def getUploadInfo (fs : FileStore) (file_id : String) : Option UploadInfo :=
  match findFile fs file_id, findUpload fs file_id with
  | some f, some u =>
      some ⟨f.file_id, u.temp_path, f.storage_path, f.conversation_type,
        f.conversation_id, f.file_name, f.file_size, u.uploaded_size, f.sha256,
        f.uploader_id, f.uploader_nickname, f.created_at⟩
  | _, _ => none

/-- `FileService::getFileNotice`: `SELECT ... FROM files WHERE file_id = ?`. -/
def getFileNotice (fs : FileStore) (file_id : String) : Option FileNotice :=
  (findFile fs file_id).map (fun f =>
    ⟨f.file_id, f.conversation_type, f.conversation_id, f.file_name, f.file_size,
     f.sha256, f.uploader_id, f.uploader_nickname, f.storage_path, f.created_at⟩)

/-- Read a file's bytes from disk (`none`: the file does not exist). -/
def diskRead (fs : FileStore) (path : String) : Option (List Byte) :=
  mlookup fs.disk path

/-- The size `std::filesystem::file_size` reports, with 0 for a missing file
(as `resumeUpload` computes it). -/
def diskSize (fs : FileStore) (path : String) : Int :=
  match diskRead fs path with
  | some c => (c.length : Int)
  | none => 0

/-- Write a file's bytes (create or overwrite). -/
def diskWrite (fs : FileStore) (path : String) (content : List Byte) : FileStore :=
  { fs with disk := mset fs.disk path content }

/-- `std::filesystem::rename(from, to)`. -/
def diskRename (fs : FileStore) (src dst : String) : Option FileStore :=
  match diskRead fs src with
  | none => none
  | some c => some { fs with disk := mset (merase fs.disk src) dst c }

/-- `FileService::createUpload`: validate `file_size > 0` and a non-empty
recipient list, build the storage/temp paths from the freshly generated
`file_id` (the 128-bit random id is passed in by the caller of the model),
then in one transaction insert the `File` row, the `FileUpload` row with
`uploaded_size = 0`, and one `FileTarget` row per de-duplicated recipient.
A primary-key conflict (an id already present, or an existing target pair)
fails the transaction, which rolls back. -/
def createUpload (cfg : FileServiceCfg) (fs : FileStore) (file_id : String)
    (offer : FileOffer) (now : Int) : Except String (FileStore × UploadInfo) :=
  if offer.file_size ≤ 0 then .error "file_size must be positive"
  else if offer.recipients.isEmpty then .error "recipients empty"
  else
    let storage_path := storagePathFor cfg file_id offer.file_name
    let temp_path := tempPathFor cfg file_id
    if (findFile fs file_id).isSome then .error "files primary key conflict"
    else if (findUpload fs file_id).isSome then .error "file_uploads primary key conflict"
    else if offer.recipients.dedup.any (fun u =>
        fs.file_targets.any (fun t => t.file_id == file_id && t.user_id == u)) then
      .error "file_targets primary key conflict"
    else
      .ok ({ files := fs.files ++ [⟨file_id, offer.uploader_id, offer.uploader_nickname,
               offer.conversation_type, offer.conversation_id, offer.file_name,
               offer.file_size, offer.sha256, storage_path, now⟩]
             file_uploads := fs.file_uploads ++
               [⟨file_id, offer.uploader_id, temp_path, 0, "uploading", now⟩]
             file_targets := fs.file_targets ++
               offer.recipients.dedup.map (fun u => FileTargetRow.mk file_id u none)
             disk := fs.disk },
           ⟨file_id, temp_path, storage_path, offer.conversation_type,
            offer.conversation_id, offer.file_name, offer.file_size, 0, offer.sha256,
            offer.uploader_id, offer.uploader_nickname, now⟩)

/-- `FileService::resumeUpload`: look the upload up, check the uploader, and
reconcile `uploaded_size` with the temp file's on-disk size (0 when the file
is missing) whenever they disagree — the row is updated to the disk size. -/
def resumeUpload (fs : FileStore) (file_id uploader_id : String) (now : Int) :
    Except String (FileStore × UploadInfo) :=
  match getUploadInfo fs file_id with
  | none => .error "upload not found"
  | some info =>
      if info.uploader_id ≠ uploader_id then .error "uploader mismatch"
      else
        let actual := diskSize fs info.temp_path
        if actual ≠ info.uploaded_size then
          .ok ({ fs with file_uploads := fs.file_uploads.map (fun u =>
                   if u.file_id == file_id then
                     { u with uploaded_size := actual, updated_at := now }
                   else u) },
               { info with uploaded_size := actual })
        else .ok (fs, info)

/-- The write `appendChunk` performs on the temp file: truncate-open at
offset 0, otherwise read-write-open (failing when the file is missing), seek
to `offset` and write `data` (a negative seek fails the stream). -/
def writeTempChunk (fs : FileStore) (temp_path : String) (offset : Int)
    (data : List Byte) : Except String FileStore :=
  if offset == 0 then .ok (diskWrite fs temp_path data)
  else
    match diskRead fs temp_path with
    | none => .error "failed to open temp file"
    | some content =>
        if offset < 0 then .error "failed to write temp file"
        else
          .ok (diskWrite fs temp_path
            (content.take offset.toNat ++
             List.replicate (offset.toNat - content.length) 0 ++
             data ++ content.drop (offset.toNat + data.length)))

/-- `FileService::appendChunk`: look the upload up, check the uploader,
require `offset = uploaded_size` and `offset + |data| ≤ file_size`, write the
chunk to the temp file, then update the row's `uploaded_size` to
`offset + |data|`. -/
def appendChunk (fs : FileStore) (file_id uploader_id : String) (offset : Int)
    (data : List Byte) (now : Int) : Except String (FileStore × UploadInfo) :=
  match getUploadInfo fs file_id with
  | none => .error "upload not found"
  | some info =>
      if info.uploader_id ≠ uploader_id then .error "uploader mismatch"
      else if offset ≠ info.uploaded_size then .error "offset mismatch"
      else if info.file_size < offset + data.length then .error "chunk exceeds file size"
      else
        match writeTempChunk fs info.temp_path offset data with
        | .error e => .error e
        | .ok fs' =>
            let next_offset := offset + data.length
            .ok ({ fs' with file_uploads := fs'.file_uploads.map (fun u =>
                     if u.file_id == file_id then
                       { u with uploaded_size := next_offset, updated_at := now }
                     else u) },
                 { info with uploaded_size := next_offset })

/-- `FileService::finalizeUpload`, parameterized by the content hash `h`
(`sha256HexFile`): look the upload up, check the uploader, require
`uploaded_size = file_size`, hash the temp file (failing when it cannot be
read) and compare with the declared sha256, rename temp → storage, and in one
transaction delete the `FileUpload` row; finally return the `FileNotice` read
from the `File` row. -/
def finalizeUpload (h : List Byte → String) (fs : FileStore)
    (file_id uploader_id : String) : Except String (FileStore × FileNotice) :=
  match getUploadInfo fs file_id with
  | none => .error "upload not found"
  | some info =>
      if info.uploader_id ≠ uploader_id then .error "uploader mismatch"
      else if info.uploaded_size ≠ info.file_size then .error "file not fully uploaded"
      else
        match diskRead fs info.temp_path with
        | none => .error "failed to read file for hashing"
        | some content =>
            if h content ≠ info.sha256 then .error "sha256 mismatch"
            else
              match diskRename fs info.temp_path info.storage_path with
              | none => .error "failed to move file to storage path"
              | some fs' =>
                  let fs2 : FileStore :=
                    { fs' with file_uploads :=
                        fs'.file_uploads.filter (fun u => !(u.file_id == file_id)) }
                  match getFileNotice fs2 file_id with
                  | none => .error "file not found"
                  | some notice => .ok (fs2, notice)

/-- `FileService::readChunk`: permission check against `file_targets`, the
still-uploading check against `file_uploads`, the `File` row lookup, the
offset range check, then read up to `chunk_size` bytes of the storage file
from `offset` (the actually-read slice may be shorter at end of file).  No
store state is touched. -/
def readChunk (cfg : FileServiceCfg) (fs : FileStore) (file_id user_id : String)
    (offset : Int) : Except String (List Byte × FileNotice) :=
  if ¬ fs.file_targets.any (fun t => t.file_id == file_id && t.user_id == user_id) then
    .error "no permission to download"
  else if (findUpload fs file_id).isSome then .error "file is still uploading"
  else
    match getFileNotice fs file_id with
    | none => .error "file not found"
    | some record =>
        if offset < 0 ∨ record.file_size ≤ offset then .error "offset out of range"
        else
          match diskRead fs record.storage_path with
          | none => .error "failed to open file"
          | some content =>
              let to_read := min (record.file_size - offset) cfg.chunk_size
              .ok ((content.drop offset.toNat).take to_read.toNat, record)


theorem mlookup_mset_self {α β : Type} [DecidableEq α] (m : List (α × β)) (k : α) (v : β) :
    mlookup (mset m k v) k = some v := by
  induction m with
  | nil => simp [mset, mlookup]
  | cons e rest ih =>
    obtain ⟨k0, v0⟩ := e
    by_cases hk : k0 = k
    · simp [mset, mlookup, hk]
    · simp [mset, mlookup, hk, ih]

theorem mlookup_mset_other {α β : Type} [DecidableEq α] (m : List (α × β)) (k k' : α) (v : β)
    (hne : k' ≠ k) : mlookup (mset m k v) k' = mlookup m k' := by
  induction m with
  | nil =>
    simp only [mset, mlookup]
    rw [if_neg (fun hh => hne hh.symm)]
  | cons e rest ih =>
    obtain ⟨k0, v0⟩ := e
    by_cases hk : k0 = k
    · subst hk
      simp only [mset, if_pos rfl, mlookup]
      rw [if_neg (fun hh => hne hh.symm), if_neg (fun hh => hne hh.symm)]
    · simp only [mset, if_neg hk, mlookup]
      by_cases hk' : k0 = k'
      · simp [hk']
      · simp [hk', ih]

theorem mlookup_merase_other {α β : Type} [DecidableEq α] (m : List (α × β)) (k k' : α)
    (hne : k' ≠ k) : mlookup (merase m k) k' = mlookup m k' := by
  induction m with
  | nil => simp [merase]
  | cons e rest ih =>
    obtain ⟨k0, v0⟩ := e
    by_cases hk : k0 = k
    · subst hk
      rw [show merase ((k0, v0) :: rest) k0 = merase rest k0 from by simp [merase]]
      rw [ih]
      show mlookup rest k' = (if k0 = k' then some v0 else mlookup rest k')
      rw [if_neg (fun hh => hne hh.symm)]
    · simp only [merase, if_neg hk, mlookup]
      by_cases hk' : k0 = k'
      · simp [hk']
      · simp [hk', ih]

theorem mlookup_merase_self {α β : Type} [DecidableEq α] (m : List (α × β)) (k : α) :
    mlookup (merase m k) k = none := by
  induction m with
  | nil => simp [merase, mlookup]
  | cons e rest ih =>
    obtain ⟨k0, v0⟩ := e
    by_cases hk : k0 = k
    · simp [merase, hk, ih]
    · simp [merase, mlookup, hk, ih]

theorem findUpload_filter_out (fs' : List FileUploadRow) (file_id : String) :
    (fs'.filter (fun u => !(u.file_id == file_id))).find?
      (fun u => u.file_id == file_id) = none := by
  rw [List.find?_eq_none]
  intro u hu
  have := List.of_mem_filter hu
  simp only [Bool.not_eq_eq_eq_not, Bool.not_true] at this
  simp [this]

/-- C4: `finalizeUpload` fails — returning an error while the store (hence
the `FileUpload` row) is untouched — when `uploaded_size ≠ file_size`, when
the temp file's hash differs from the declared sha256, or when the rename
cannot read its source; on success it deletes exactly the `FileUpload` row in
the one transaction of the call, leaves the `File` and `FileTarget` tables
alone, moves the temp bytes to the storage path, and returns the canonical
`FileNotice` read from the `File` row. -/
theorem C4_finalize_checks_and_promotion (h : List Byte → String) (fs : FileStore)
    (file_id uploader_id : String) (info : UploadInfo)
    (hinfo : getUploadInfo fs file_id = some info)
    (hupl : info.uploader_id = uploader_id) :
    (info.uploaded_size ≠ info.file_size →
      finalizeUpload h fs file_id uploader_id = .error "file not fully uploaded") ∧
    (∀ content, info.uploaded_size = info.file_size →
      diskRead fs info.temp_path = some content → h content ≠ info.sha256 →
      finalizeUpload h fs file_id uploader_id = .error "sha256 mismatch") ∧
    (info.uploaded_size = info.file_size → diskRead fs info.temp_path = none →
      finalizeUpload h fs file_id uploader_id = .error "failed to read file for hashing") ∧
    (∀ fs' notice, finalizeUpload h fs file_id uploader_id = .ok (fs', notice) →
      fs'.file_uploads = fs.file_uploads.filter (fun u => !(u.file_id == file_id)) ∧
      findUpload fs' file_id = none ∧
      fs'.files = fs.files ∧ fs'.file_targets = fs.file_targets ∧
      getFileNotice fs file_id = some notice ∧
      info.uploaded_size = info.file_size ∧
      (∃ content, diskRead fs info.temp_path = some content ∧
        h content = info.sha256 ∧
        diskRead fs' info.storage_path = some content)) := by
  refine ⟨?_, ?_, ?_, ?_⟩
  · intro hne
    unfold finalizeUpload
    rw [hinfo]
    simp only [hupl]
    rw [if_neg (by simp), if_pos hne]
  · intro content heq hdisk hhash
    unfold finalizeUpload
    rw [hinfo]
    simp only [hupl]
    rw [if_neg (by simp), if_neg (by omega), hdisk]
    simp only
    rw [if_pos hhash]
  · intro heq hdisk
    unfold finalizeUpload
    rw [hinfo]
    simp only [hupl]
    rw [if_neg (by simp), if_neg (by omega), hdisk]
  · intro fs' notice hok
    unfold finalizeUpload at hok
    rw [hinfo] at hok
    simp only [hupl] at hok
    rw [if_neg (by simp)] at hok
    split_ifs at hok with hsz
    cases hdisk : diskRead fs info.temp_path with
    | none => rw [hdisk] at hok; exact absurd hok (by simp)
    | some content =>
      rw [hdisk] at hok
      simp only at hok
      split_ifs at hok with hhash
      cases hren : diskRename fs info.temp_path info.storage_path with
      | none => rw [hren] at hok; exact absurd hok (by simp)
      | some fsr =>
        rw [hren] at hok
        simp only at hok
        cases hnotice : getFileNotice
            ({ fsr with file_uploads :=
               fsr.file_uploads.filter (fun u => !(u.file_id == file_id)) } : FileStore)
            file_id with
        | none => rw [hnotice] at hok; exact absurd hok (by simp)
        | some n =>
          rw [hnotice] at hok
          simp only [Except.ok.injEq, Prod.mk.injEq] at hok
          obtain ⟨hfs', hn⟩ := hok
          have hrenparts : fsr.files = fs.files ∧ fsr.file_uploads = fs.file_uploads ∧
              fsr.file_targets = fs.file_targets ∧
              fsr.disk = mset (merase fs.disk info.temp_path) info.storage_path content := by
            unfold diskRename at hren
            rw [hdisk] at hren
            simp only [Option.some.injEq] at hren
            rw [← hren]
            exact ⟨rfl, rfl, rfl, rfl⟩
          subst hfs'
          obtain ⟨hrf, hru, hrt, hrd⟩ := hrenparts
          refine ⟨by rw [hru], ?_, hrf, hrt, ?_, not_ne_iff.mp hsz,
            ⟨content, rfl, not_ne_iff.mp hhash, ?_⟩⟩
          · show findUpload
              ({ fsr with file_uploads :=
                 fsr.file_uploads.filter (fun u => !(u.file_id == file_id)) } : FileStore)
              file_id = none
            unfold findUpload
            exact findUpload_filter_out fsr.file_uploads file_id
          · rw [← hn]
            unfold getFileNotice findFile at hnotice ⊢
            simp only at hnotice
            rw [hrf] at hnotice
            exact hnotice
          · show diskRead
              ({ fsr with file_uploads :=
                 fsr.file_uploads.filter (fun u => !(u.file_id == file_id)) } : FileStore)
              info.storage_path = some content
            unfold diskRead
            simp only
            rw [hrd]
            exact mlookup_mset_self _ _ _


/-- C4 witness: on a fully-uploaded 3-byte file whose hash matches, finalize
promotes and removes the `FileUpload` row; with `uploaded_size = 1 ≠ 3` it
fails with "file not fully uploaded". -/
theorem C4_finalize_checks_and_promotion_witness :
    findUpload (⟨[⟨"f1", "alice", "A", "private", "bob", "doc.txt", 3, "H", "st", 0⟩],
      [], [⟨"f1", "bob", none⟩], [("st", [1, 2, 3])]⟩ : FileStore) "f1" = none ∧
    finalizeUpload (fun _ => "H")
      ⟨[⟨"f1", "alice", "A", "private", "bob", "doc.txt", 3, "H", "st", 0⟩],
       [⟨"f1", "alice", "tmp", 1, "uploading", 0⟩],
       [⟨"f1", "bob", none⟩], [("tmp", [1])]⟩ "f1" "alice" =
      .error "file not fully uploaded" := by
  constructor
  · exact ((C4_finalize_checks_and_promotion (fun _ => "H")
      ⟨[⟨"f1", "alice", "A", "private", "bob", "doc.txt", 3, "H", "st", 0⟩],
       [⟨"f1", "alice", "tmp", 3, "uploading", 0⟩],
       [⟨"f1", "bob", none⟩], [("tmp", [1, 2, 3])]⟩ "f1" "alice"
      ⟨"f1", "tmp", "st", "private", "bob", "doc.txt", 3, 3, "H", "alice", "A", 0⟩
      (by decide) (by decide)).2.2.2
      ⟨[⟨"f1", "alice", "A", "private", "bob", "doc.txt", 3, "H", "st", 0⟩],
       [], [⟨"f1", "bob", none⟩], [("st", [1, 2, 3])]⟩
      ⟨"f1", "private", "bob", "doc.txt", 3, "H", "alice", "A", "st", 0⟩
      rfl).2.1
  · exact (C4_finalize_checks_and_promotion (fun _ => "H")
      ⟨[⟨"f1", "alice", "A", "private", "bob", "doc.txt", 3, "H", "st", 0⟩],
       [⟨"f1", "alice", "tmp", 1, "uploading", 0⟩],
       [⟨"f1", "bob", none⟩], [("tmp", [1])]⟩ "f1" "alice"
      ⟨"f1", "tmp", "st", "private", "bob", "doc.txt", 3, 1, "H", "alice", "A", 0⟩
      (by decide) (by decide)).1 (by decide)

/-- C5: `readChunk` fails with the permission error when `(file_id, user_id)`
is not in `file_targets`, with the still-uploading error when a `FileUpload`
row exists, with the out-of-range error when `offset < 0` or
`offset ≥ file_size`; otherwise it returns at most `chunk_size` bytes read
from the storage file starting at `offset`, together with the file's
metadata, and — reading only — returns no modified store at all. -/
theorem C5_readChunk_guards_and_slice (cfg : FileServiceCfg) (fs : FileStore)
    (file_id user_id : String) (offset : Int) (hchunk : 0 ≤ cfg.chunk_size) :
    (fs.file_targets.any (fun t => t.file_id == file_id && t.user_id == user_id) = false →
      readChunk cfg fs file_id user_id offset = .error "no permission to download") ∧
    (fs.file_targets.any (fun t => t.file_id == file_id && t.user_id == user_id) = true →
      (findUpload fs file_id).isSome = true →
      readChunk cfg fs file_id user_id offset = .error "file is still uploading") ∧
    (∀ record,
      fs.file_targets.any (fun t => t.file_id == file_id && t.user_id == user_id) = true →
      findUpload fs file_id = none → getFileNotice fs file_id = some record →
      (offset < 0 ∨ record.file_size ≤ offset) →
      readChunk cfg fs file_id user_id offset = .error "offset out of range") ∧
    (∀ data record, readChunk cfg fs file_id user_id offset = .ok (data, record) →
      getFileNotice fs file_id = some record ∧
      fs.file_targets.any (fun t => t.file_id == file_id && t.user_id == user_id) = true ∧
      findUpload fs file_id = none ∧
      0 ≤ offset ∧ offset < record.file_size ∧
      (data.length : Int) ≤ cfg.chunk_size ∧
      (∃ content, diskRead fs record.storage_path = some content ∧
        data = (content.drop offset.toNat).take
          (min (record.file_size - offset) cfg.chunk_size).toNat)) := by
  refine ⟨?_, ?_, ?_, ?_⟩
  · intro hperm
    unfold readChunk
    rw [if_pos (by simp [hperm])]
  · intro hperm hupl
    unfold readChunk
    rw [if_neg (by simp [hperm])]
    rw [if_pos hupl]
  · intro record hperm hupl hnot hrange
    unfold readChunk
    rw [if_neg (by simp [hperm])]
    rw [if_neg (by rw [hupl]; simp)]
    rw [hnot]
    simp only
    rw [if_pos hrange]
  · intro data record hok
    unfold readChunk at hok
    split_ifs at hok with hperm hupl
    have hupl' : findUpload fs file_id = none := by
      cases hfind : findUpload fs file_id with
      | none => rfl
      | some u => rw [hfind] at hupl; simp at hupl
    cases hnot : getFileNotice fs file_id with
    | none => rw [hnot] at hok; exact absurd hok (by simp)
    | some rec0 =>
      rw [hnot] at hok
      simp only at hok
      split_ifs at hok with hrange
      cases hdisk : diskRead fs rec0.storage_path with
      | none => rw [hdisk] at hok; exact absurd hok (by simp)
      | some content =>
        rw [hdisk] at hok
        simp only [Except.ok.injEq, Prod.mk.injEq] at hok
        obtain ⟨hdata, hrec⟩ := hok
        subst hrec
        push_neg at hrange
        refine ⟨rfl, by simpa using hperm, hupl', hrange.1, hrange.2, ?_,
          ⟨content, hdisk, hdata.symm⟩⟩
        rw [← hdata]
        have hlen : ((content.drop offset.toNat).take
            (min (rec0.file_size - offset) cfg.chunk_size).toNat).length ≤
            (min (rec0.file_size - offset) cfg.chunk_size).toNat :=
          List.length_take_le _ _
        omega

/-- C5 witness: bob reads the stored 3-byte file at offset 1 with chunk size
2 and gets bytes [2, 3]; carol (not a target) is refused; any read while the
upload row exists is refused. -/
theorem C5_readChunk_guards_and_slice_witness :
    readChunk ⟨"files", "tmp", 2⟩
      (⟨[⟨"f1", "alice", "A", "private", "bob", "doc.txt", 3, "H", "st", 0⟩],
        [], [⟨"f1", "bob", none⟩], [("st", [1, 2, 3])]⟩ : FileStore)
      "f1" "carol" 0 = .error "no permission to download" ∧
    (∀ data record, readChunk ⟨"files", "tmp", 2⟩
        (⟨[⟨"f1", "alice", "A", "private", "bob", "doc.txt", 3, "H", "st", 0⟩],
          [], [⟨"f1", "bob", none⟩], [("st", [1, 2, 3])]⟩ : FileStore)
        "f1" "bob" 1 = .ok (data, record) → (data.length : Int) ≤ 2) := by
  constructor
  · exact (C5_readChunk_guards_and_slice ⟨"files", "tmp", 2⟩
      ⟨[⟨"f1", "alice", "A", "private", "bob", "doc.txt", 3, "H", "st", 0⟩],
       [], [⟨"f1", "bob", none⟩], [("st", [1, 2, 3])]⟩
      "f1" "carol" 0 (by decide)).1 (by decide)
  · intro data record hok
    exact ((C5_readChunk_guards_and_slice ⟨"files", "tmp", 2⟩
      ⟨[⟨"f1", "alice", "A", "private", "bob", "doc.txt", 3, "H", "st", 0⟩],
       [], [⟨"f1", "bob", none⟩], [("st", [1, 2, 3])]⟩
      "f1" "bob" 1 (by decide)).2.2.2 data record hok).2.2.2.2.2.1


/-! ### The upload-size invariant (C3) -/

theorem tempPathFor_inj (cfg : FileServiceCfg) {a b : String}
    (h : tempPathFor cfg a = tempPathFor cfg b) : a = b := by
  unfold tempPathFor at h
  have hd := congrArg String.data h
  simp only [String.data_append] at hd
  have h1 := List.append_cancel_right hd
  have h2 := List.append_cancel_left h1
  cases a; cases b
  exact congrArg String.mk h2

theorem mlookup_mem {α β : Type} [DecidableEq α] {m : List (α × β)} {k : α} {v : β}
    (h : mlookup m k = some v) : (k, v) ∈ m := by
  induction m with
  | nil => simp [mlookup] at h
  | cons e rest ih =>
    obtain ⟨k0, v0⟩ := e
    by_cases hk : k0 = k
    · subst hk
      have hh : mlookup ((k0, v0) :: rest) k0 = some v0 := by simp [mlookup]
      rw [hh] at h
      obtain rfl := Option.some.inj h
      exact List.mem_cons_self _ _
    · simp only [mlookup, if_neg hk] at h
      exact List.mem_cons_of_mem _ (ih h)

theorem mem_mset {α β : Type} [DecidableEq α] {m : List (α × β)} {k : α} {v : β}
    {e : α × β} (h : e ∈ mset m k v) : e = (k, v) ∨ e ∈ m := by
  induction m with
  | nil => simpa [mset] using h
  | cons e0 rest ih =>
    obtain ⟨k0, v0⟩ := e0
    by_cases hk : k0 = k
    · subst hk
      simp only [mset, if_pos rfl] at h
      rcases List.mem_cons.mp h with h1 | h1
      · exact Or.inl h1
      · exact Or.inr (List.mem_cons_of_mem _ h1)
    · simp only [mset, if_neg hk] at h
      rcases List.mem_cons.mp h with h1 | h1
      · exact Or.inr (by rw [h1]; exact List.mem_cons_self _ _)
      · rcases ih h1 with h2 | h2
        · exact Or.inl h2
        · exact Or.inr (List.mem_cons_of_mem _ h2)

/-- The invariant behind C3, over the file tables and the temp area: every
upload row's `uploaded_size` is between 0 and its file's `file_size`, the row
points at the canonical `temp_dir/<file_id>.part` path whose on-disk size is
exactly `uploaded_size`; the table keys are unique and every disk file is
some upload's temp file. -/
def UploadInv (cfg : FileServiceCfg) (fs : FileStore) : Prop :=
  (fs.files.map (fun f => f.file_id)).Nodup ∧
  (fs.file_uploads.map (fun u => u.file_id)).Nodup ∧
  (∀ u ∈ fs.file_uploads,
    u.temp_path = tempPathFor cfg u.file_id ∧
    0 ≤ u.uploaded_size ∧
    diskSize fs u.temp_path = u.uploaded_size ∧
    ∃ f, findFile fs u.file_id = some f ∧ u.uploaded_size ≤ f.file_size) ∧
  (∀ e ∈ fs.disk, ∃ u, u ∈ fs.file_uploads ∧ u.temp_path = e.1)

/-- One successful file-service call of the kinds C3 quantifies over
(`createUpload`, `appendChunk`, `resumeUpload`); failed calls return an error
and no new store. -/
inductive UploadStep (cfg : FileServiceCfg) : FileStore → FileStore → Prop
  | create (fs fs' : FileStore) (file_id : String) (offer : FileOffer) (now : Int)
      (info : UploadInfo) :
      createUpload cfg fs file_id offer now = .ok (fs', info) → UploadStep cfg fs fs'
  | append (fs fs' : FileStore) (file_id uploader_id : String) (offset : Int)
      (data : List Byte) (now : Int) (info : UploadInfo) :
      appendChunk fs file_id uploader_id offset data now = .ok (fs', info) →
      UploadStep cfg fs fs'
  | resume (fs fs' : FileStore) (file_id uploader_id : String) (now : Int)
      (info : UploadInfo) :
      resumeUpload fs file_id uploader_id now = .ok (fs', info) → UploadStep cfg fs fs'

theorem diskSize_disk_eq {fs fs' : FileStore} (h : fs'.disk = fs.disk) (p : String) :
    diskSize fs' p = diskSize fs p := by
  unfold diskSize diskRead
  rw [h]


theorem uploadInv_create (cfg : FileServiceCfg) (fs fs' : FileStore) (file_id : String)
    (offer : FileOffer) (now : Int) (info : UploadInfo)
    (hinv : UploadInv cfg fs)
    (h : createUpload cfg fs file_id offer now = .ok (fs', info)) :
    UploadInv cfg fs' := by
  obtain ⟨hnf, hnu, h3, h4⟩ := hinv
  simp only [createUpload] at h
  split_ifs at h with hsz hemp hff hfu htg
  simp only [Except.ok.injEq, Prod.mk.injEq] at h
  obtain ⟨hfs, hinfo⟩ := h
  have hfiles : fs'.files = fs.files ++ [⟨file_id, offer.uploader_id,
      offer.uploader_nickname, offer.conversation_type, offer.conversation_id,
      offer.file_name, offer.file_size, offer.sha256,
      storagePathFor cfg file_id offer.file_name, now⟩] := by rw [← hfs]
  have huploads : fs'.file_uploads = fs.file_uploads ++ [⟨file_id, offer.uploader_id,
      tempPathFor cfg file_id, 0, "uploading", now⟩] := by rw [← hfs]
  have hdisk : fs'.disk = fs.disk := by rw [← hfs]
  have hffn : findFile fs file_id = none := by
    cases hq : findFile fs file_id with
    | none => rfl
    | some f => rw [hq] at hff; simp at hff
  have hfun : findUpload fs file_id = none := by
    cases hq : findUpload fs file_id with
    | none => rfl
    | some u => rw [hq] at hfu; simp at hfu
  have hid_not_file : ∀ f ∈ fs.files, f.file_id ≠ file_id := by
    intro f hf heq
    have hs : (fs.files.find? (fun f => f.file_id == file_id)).isSome = true := by
      rw [List.find?_isSome]
      exact ⟨f, hf, by simp [heq]⟩
    rw [show fs.files.find? (fun f => f.file_id == file_id) = findFile fs file_id
      from rfl, hffn] at hs
    simp at hs
  have hid_not_upload : ∀ u ∈ fs.file_uploads, u.file_id ≠ file_id := by
    intro u hu heq
    have hs : (fs.file_uploads.find? (fun u => u.file_id == file_id)).isSome = true := by
      rw [List.find?_isSome]
      exact ⟨u, hu, by simp [heq]⟩
    rw [show fs.file_uploads.find? (fun u => u.file_id == file_id) = findUpload fs file_id
      from rfl, hfun] at hs
    simp at hs
  have hfind' : ∀ fid₀, fid₀ ≠ file_id →
      findFile fs' fid₀ = findFile fs fid₀ := by
    intro fid₀ hne
    unfold findFile
    rw [hfiles, List.find?_append]
    cases hq : fs.files.find? (fun f => f.file_id == fid₀) with
    | some f => rfl
    | none =>
      have hnone : (([⟨file_id, offer.uploader_id, offer.uploader_nickname,
          offer.conversation_type, offer.conversation_id, offer.file_name,
          offer.file_size, offer.sha256, storagePathFor cfg file_id offer.file_name,
          now⟩] : List FileRow).find? (fun f => f.file_id == fid₀)) = none := by
        rw [List.find?_eq_none]
        intro x hx
        have hx' : x.file_id = file_id := by
          rw [List.mem_singleton.mp hx]
        simp only [hx', beq_iff_eq]
        exact fun hh => hne hh.symm
      rw [hnone]
      rfl
  have hfindnew : findFile fs' file_id = some ⟨file_id, offer.uploader_id,
      offer.uploader_nickname, offer.conversation_type, offer.conversation_id,
      offer.file_name, offer.file_size, offer.sha256,
      storagePathFor cfg file_id offer.file_name, now⟩ := by
    unfold findFile
    rw [hfiles, List.find?_append]
    unfold findFile at hffn
    rw [hffn]
    simp
  have hdsz : ∀ p, diskSize fs' p = diskSize fs p := by
    intro p
    unfold diskSize diskRead
    rw [hdisk]
  refine ⟨?_, ?_, ?_, ?_⟩
  · rw [hfiles]
    simp only [List.map_append, List.map_cons, List.map_nil]
    rw [List.nodup_append]
    refine ⟨hnf, by simp, ?_⟩
    intro a ha
    simp only [List.mem_singleton]
    intro haeq
    obtain ⟨f, hfmem, hfid⟩ := List.mem_map.mp ha
    exact hid_not_file f hfmem (by rw [hfid, haeq])
  · rw [huploads]
    simp only [List.map_append, List.map_cons, List.map_nil]
    rw [List.nodup_append]
    refine ⟨hnu, by simp, ?_⟩
    intro a ha
    simp only [List.mem_singleton]
    intro haeq
    obtain ⟨u, humem, huid⟩ := List.mem_map.mp ha
    exact hid_not_upload u humem (by rw [huid, haeq])
  · intro u hu
    rw [huploads] at hu
    rcases List.mem_append.mp hu with hold | hnew
    · obtain ⟨ht, h0, hds, f0, hfind, hle⟩ := h3 u hold
      refine ⟨ht, h0, by rw [hdsz]; exact hds, f0, ?_, hle⟩
      rw [hfind' u.file_id (hid_not_upload u hold)]
      exact hfind
    · have hu' : u = ⟨file_id, offer.uploader_id, tempPathFor cfg file_id, 0,
          "uploading", now⟩ := by simpa using hnew
      subst hu'
      refine ⟨rfl, le_refl 0, ?_, ?_⟩
      · rw [hdsz]
        unfold diskSize
        cases hq : diskRead fs (tempPathFor cfg file_id) with
        | none => rfl
        | some c =>
          exfalso
          have hmem := mlookup_mem hq
          obtain ⟨u0, hu0, htp⟩ := h4 _ hmem
          obtain ⟨ht0, _, _, _⟩ := h3 u0 hu0
          rw [ht0] at htp
          exact hid_not_upload u0 hu0 (tempPathFor_inj cfg htp)
      · refine ⟨_, hfindnew, ?_⟩
        show (0 : Int) ≤ offer.file_size
        omega
  · intro e he
    rw [hdisk] at he
    obtain ⟨u0, hu0, htp⟩ := h4 e he
    refine ⟨u0, ?_, htp⟩
    rw [huploads]
    exact List.mem_append_left _ hu0


theorem diskSize_write_self (fs : FileStore) (p : String) (c : List Byte) :
    diskSize (diskWrite fs p c) p = (c.length : Int) := by
  unfold diskSize diskRead diskWrite
  simp only
  rw [mlookup_mset_self]

theorem diskSize_write_other (fs : FileStore) (p q : String) (c : List Byte)
    (hq : q ≠ p) : diskSize (diskWrite fs p c) q = diskSize fs q := by
  unfold diskSize diskRead diskWrite
  simp only
  rw [mlookup_mset_other _ _ _ _ hq]

theorem writeTempChunk_ok {fs : FileStore} {temp : String} {offset : Int}
    {data : List Byte} {fs1 : FileStore}
    (h : writeTempChunk fs temp offset data = .ok fs1)
    (hoff : 0 ≤ offset) (hds : diskSize fs temp = offset) :
    fs1.files = fs.files ∧ fs1.file_uploads = fs.file_uploads ∧
    fs1.file_targets = fs.file_targets ∧
    diskSize fs1 temp = offset + data.length ∧
    (∀ q, q ≠ temp → diskSize fs1 q = diskSize fs q) ∧
    (∀ e ∈ fs1.disk, e.1 = temp ∨ e ∈ fs.disk) := by
  unfold writeTempChunk at h
  by_cases h0 : (offset == 0) = true
  · rw [if_pos h0] at h
    simp only [Except.ok.injEq] at h
    subst h
    have hoff0 : offset = 0 := by simpa using h0
    refine ⟨rfl, rfl, rfl, ?_, ?_, ?_⟩
    · rw [diskSize_write_self]
      omega
    · intro q hq
      exact diskSize_write_other fs temp q data hq
    · intro e he
      simp only [diskWrite] at he
      rcases mem_mset he with h1 | h1
      · exact Or.inl (by rw [h1])
      · exact Or.inr h1
  · rw [if_neg h0] at h
    cases hdr : diskRead fs temp with
    | none => rw [hdr] at h; exact absurd h (by simp)
    | some content =>
      rw [hdr] at h
      simp only at h
      rw [if_neg (by omega)] at h
      simp only [Except.ok.injEq] at h
      subst h
      have hclen : content.length = offset.toNat := by
        unfold diskSize at hds
        rw [hdr] at hds
        simp only at hds
        omega
      refine ⟨rfl, rfl, rfl, ?_, ?_, ?_⟩
      · rw [diskSize_write_self]
        simp only [List.length_append, List.length_take, List.length_replicate,
          List.length_drop]
        omega
      · intro q hq
        exact diskSize_write_other fs temp q _ hq
      · intro e he
        simp only [diskWrite] at he
        rcases mem_mset he with h1 | h1
        · exact Or.inl (by rw [h1])
        · exact Or.inr h1


theorem uploadInv_append (cfg : FileServiceCfg) (fs fs' : FileStore)
    (file_id uploader_id : String) (offset : Int) (data : List Byte) (now : Int)
    (info : UploadInfo) (hinv : UploadInv cfg fs)
    (h : appendChunk fs file_id uploader_id offset data now = .ok (fs', info)) :
    UploadInv cfg fs' := by
  obtain ⟨hnf, hnu, h3, h4⟩ := hinv
  unfold appendChunk at h
  cases hui : getUploadInfo fs file_id with
  | none => rw [hui] at h; exact absurd h (by simp)
  | some info0 =>
    rw [hui] at h
    simp only at h
    split_ifs at h with hupl hoff hsz
    cases hw : writeTempChunk fs info0.temp_path offset data with
    | error e => rw [hw] at h; exact absurd h (by simp)
    | ok fs1 =>
      rw [hw] at h
      simp only [Except.ok.injEq, Prod.mk.injEq] at h
      obtain ⟨hfs, hinfo⟩ := h
      unfold getUploadInfo at hui
      cases hqf : findFile fs file_id with
      | none => rw [hqf] at hui; simp at hui
      | some f0 =>
        cases hqu : findUpload fs file_id with
        | none => rw [hqf, hqu] at hui; simp at hui
        | some u0 =>
          rw [hqf, hqu] at hui
          simp only [Option.some.injEq] at hui
          subst hui
          simp only at hupl hoff hsz hw
          have hu0mem : u0 ∈ fs.file_uploads := List.mem_of_find?_eq_some hqu
          have hu0id : u0.file_id = file_id := by
            simpa using List.find?_some hqu
          obtain ⟨ht0, h00, hds0, fX, hfindX, hleX⟩ := h3 u0 hu0mem
          have hfX : fX = f0 := by
            rw [hu0id, hqf] at hfindX
            exact (Option.some.inj hfindX).symm
          subst hfX
          have hoffeq : offset = u0.uploaded_size := not_ne_iff.mp hoff
          have hoff0 : 0 ≤ offset := by omega
          obtain ⟨hw_files, hw_uploads, hw_targets, hw_size, hw_other, hw_mem⟩ :=
            writeTempChunk_ok hw hoff0 (by rw [hds0]; omega)
          have hfs_files : fs'.files = fs.files := by rw [← hfs]; exact hw_files
          have hfs_uploads : fs'.file_uploads = fs.file_uploads.map (fun u =>
              if u.file_id == file_id then
                { u with uploaded_size := offset + data.length, updated_at := now }
              else u) := by
            rw [← hfs]
            simp only
            rw [hw_uploads]
          have hfs_disk : fs'.disk = fs1.disk := by rw [← hfs]
          have hdsz_eq : ∀ p, diskSize fs' p = diskSize fs1 p := by
            intro p
            unfold diskSize diskRead
            rw [hfs_disk]
          have hfind_eq : ∀ fid₀, findFile fs' fid₀ = findFile fs fid₀ := by
            intro fid₀
            unfold findFile
            rw [hfs_files]
          refine ⟨?_, ?_, ?_, ?_⟩
          · rw [hfs_files]; exact hnf
          · rw [hfs_uploads, List.map_map]
            have : ((fun u => u.file_id) ∘ (fun u : FileUploadRow =>
                if u.file_id == file_id then
                  { u with uploaded_size := offset + data.length, updated_at := now }
                else u)) = fun u => u.file_id := by
              funext u
              simp only [Function.comp_apply]
              split_ifs <;> rfl
            rw [this]
            exact hnu
          · intro u' hu'
            rw [hfs_uploads] at hu'
            obtain ⟨u, humem, hueq⟩ := List.mem_map.mp hu'
            by_cases hid : (u.file_id == file_id) = true
            · have huu0 : u = u0 := by
                apply List.inj_on_of_nodup_map hnu humem hu0mem
                rw [hu0id]
                simpa using hid
              subst huu0
              rw [if_pos hid] at hueq
              subst hueq
              refine ⟨by simpa using ht0,
                by show (0 : Int) ≤ offset + (data.length : Int); omega, ?_, fX, ?_, ?_⟩
              · show diskSize fs' u.temp_path = offset + data.length
                rw [hdsz_eq, ht0, ← ht0]
                exact hw_size
              · show findFile fs' u.file_id = some fX
                rw [hfind_eq]
                simpa using hfindX
              · show offset + (data.length : Int) ≤ fX.file_size
                omega
            · rw [if_neg hid] at hueq
              subst hueq
              obtain ⟨ht, h0u, hds, f, hfind, hle⟩ := h3 u humem
              refine ⟨ht, h0u, ?_, f, ?_, hle⟩
              · rw [hdsz_eq]
                have hne : u.temp_path ≠ u0.temp_path := by
                  rw [ht, ht0]
                  intro hcontra
                  have h5 := tempPathFor_inj cfg hcontra
                  rw [hu0id] at h5
                  simp [h5] at hid
                rw [hw_other _ hne]
                exact hds
              · rw [hfind_eq]
                exact hfind
          · intro e he
            rw [hfs_disk] at he
            rcases hw_mem e he with h1 | h1
            · refine ⟨FileUploadRow.mk u0.file_id u0.uploader_id u0.temp_path
                (offset + data.length) u0.status now, ?_, ?_⟩
              · rw [hfs_uploads]
                apply List.mem_map.mpr
                refine ⟨u0, hu0mem, ?_⟩
                rw [if_pos (by simp [hu0id])]
              · simpa using h1.symm
            · obtain ⟨u, humem, htp⟩ := h4 e h1
              refine ⟨(if (u.file_id == file_id) = true then
                  FileUploadRow.mk u.file_id u.uploader_id u.temp_path
                    (offset + data.length) u.status now
                  else u), ?_, ?_⟩
              · rw [hfs_uploads]
                refine List.mem_map.mpr ⟨u, humem, ?_⟩
                split_ifs <;> rfl
              · split_ifs with hsplit
                · simpa using htp
                · exact htp


theorem uploadInv_resume (cfg : FileServiceCfg) (fs fs' : FileStore)
    (file_id uploader_id : String) (now : Int) (info : UploadInfo)
    (hinv : UploadInv cfg fs)
    (h : resumeUpload fs file_id uploader_id now = .ok (fs', info)) :
    UploadInv cfg fs' := by
  have hinv' := hinv
  obtain ⟨hnf, hnu, h3, h4⟩ := hinv'
  unfold resumeUpload at h
  cases hui : getUploadInfo fs file_id with
  | none => rw [hui] at h; exact absurd h (by simp)
  | some info0 =>
    rw [hui] at h
    simp only at h
    unfold getUploadInfo at hui
    cases hqf : findFile fs file_id with
    | none => rw [hqf] at hui; simp at hui
    | some f0 =>
      cases hqu : findUpload fs file_id with
      | none => rw [hqf, hqu] at hui; simp at hui
      | some u0 =>
        rw [hqf, hqu] at hui
        simp only [Option.some.injEq] at hui
        subst hui
        simp only at h
        have hu0mem : u0 ∈ fs.file_uploads := List.mem_of_find?_eq_some hqu
        obtain ⟨ht0, h00, hds0, fX, hfindX, hleX⟩ := h3 u0 hu0mem
        split_ifs at h with hupl hdiff
        · exact absurd hds0 hdiff
        · simp only [Except.ok.injEq, Prod.mk.injEq] at h
          rw [← h.1]
          exact hinv


/-- C3: across every sequence of successful file-service operations
(`createUpload`, `appendChunk`, `resumeUpload`) from the empty store, each
`file_uploads` row keeps `0 ≤ uploaded_size ≤ file_size` of its `files` row; a
successful `appendChunk` advances the returned `uploaded_size` by exactly the
chunk's length, so it never decreases across successive appends on the same
`file_id`; and a successful `resumeUpload` reconciles `uploaded_size` to the
temp file's on-disk size (disk authoritative). -/
theorem C3_uploaded_size_bounds (cfg : FileServiceCfg) :
    (∀ fs, Relation.ReflTransGen (UploadStep cfg) ⟨[], [], [], []⟩ fs →
      ∀ u ∈ fs.file_uploads, 0 ≤ u.uploaded_size ∧
        ∃ f, findFile fs u.file_id = some f ∧ u.uploaded_size ≤ f.file_size) ∧
    (∀ (fs : FileStore) (file_id uploader_id : String) (offset : Int)
        (data : List Byte) (now : Int) (fs' : FileStore) (info0 info : UploadInfo),
      getUploadInfo fs file_id = some info0 →
      appendChunk fs file_id uploader_id offset data now = .ok (fs', info) →
      info.uploaded_size = info0.uploaded_size + data.length ∧
      info0.uploaded_size ≤ info.uploaded_size) ∧
    (∀ (fs : FileStore) (file_id uploader_id : String) (now : Int)
        (fs' : FileStore) (info0 info : UploadInfo),
      getUploadInfo fs file_id = some info0 →
      resumeUpload fs file_id uploader_id now = .ok (fs', info) →
      info.uploaded_size = diskSize fs info0.temp_path) := by
  refine ⟨?_, ?_, ?_⟩
  · intro fs hreach
    have hinv : UploadInv cfg fs := by
      induction hreach with
      | refl =>
        refine ⟨List.nodup_nil, List.nodup_nil, ?_, ?_⟩
        · intro u hu
          exact absurd hu (List.not_mem_nil u)
        · intro e he
          exact absurd he (List.not_mem_nil e)
      | tail _ hstep ih =>
        cases hstep
        case create => exact uploadInv_create _ _ _ _ _ _ _ ih (by assumption)
        case append => exact uploadInv_append _ _ _ _ _ _ _ _ _ ih (by assumption)
        case resume => exact uploadInv_resume _ _ _ _ _ _ _ ih (by assumption)
    intro u hu
    obtain ⟨hx1, hx2, h3, h4⟩ := hinv
    obtain ⟨htp, h0, hds, f, hf, hle⟩ := h3 u hu
    exact ⟨h0, f, hf, hle⟩
  · intro fs file_id uploader_id offset data now fs' info0 info hui happ
    unfold appendChunk at happ
    rw [hui] at happ
    simp only at happ
    split_ifs at happ with hupl hoff hsz
    cases hw : writeTempChunk fs info0.temp_path offset data with
    | error e => rw [hw] at happ; exact absurd happ (by simp)
    | ok fs1 =>
      rw [hw] at happ
      simp only [Except.ok.injEq, Prod.mk.injEq] at happ
      have hoff' : offset = info0.uploaded_size := not_ne_iff.mp hoff
      have hval : info.uploaded_size = offset + (data.length : Int) := by
        rw [← happ.2]
      constructor
      · rw [hval, hoff']
      · rw [hval, hoff']
        omega
  · intro fs file_id uploader_id now fs' info0 info hui hres
    unfold resumeUpload at hres
    rw [hui] at hres
    simp only at hres
    split_ifs at hres with hupl hdiff
    · simp only [Except.ok.injEq, Prod.mk.injEq] at hres
      rw [← hres.2]
    · simp only [Except.ok.injEq, Prod.mk.injEq] at hres
      rw [← hres.2]
      exact (not_ne_iff.mp hdiff).symm

/-- C3 witness: after one concrete `createUpload` ("F", 3 bytes, recipient
bob), the upload row satisfies the bounds the invariant part of C3 states. -/
theorem C3_uploaded_size_bounds_witness :
    (0 : Int) ≤ (FileUploadRow.mk "F" "alice" "tmp/F.part" 0 "uploading" 10).uploaded_size ∧
    ∃ f, findFile (FileStore.mk
        [FileRow.mk "F" "alice" "A" "private" "bob" "a.txt" 3 "H" "files/F_a.txt" 10]
        [FileUploadRow.mk "F" "alice" "tmp/F.part" 0 "uploading" 10]
        [FileTargetRow.mk "F" "bob" none] []) "F" = some f ∧
      (FileUploadRow.mk "F" "alice" "tmp/F.part" 0 "uploading" 10).uploaded_size ≤
        f.file_size :=
  (C3_uploaded_size_bounds ⟨"files", "tmp", 4⟩).1
    (FileStore.mk
      [FileRow.mk "F" "alice" "A" "private" "bob" "a.txt" 3 "H" "files/F_a.txt" 10]
      [FileUploadRow.mk "F" "alice" "tmp/F.part" 0 "uploading" 10]
      [FileTargetRow.mk "F" "bob" none] [])
    (Relation.ReflTransGen.single
      (UploadStep.create ⟨[], [], [], []⟩ _ "F"
        ⟨"", "private", "bob", "a.txt", 3, "H", "alice", "A", ["bob"]⟩ 10
        ⟨"F", "tmp/F.part", "files/F_a.txt", "private", "bob", "a.txt", 3, 0, "H",
         "alice", "A", 10⟩ (by rfl)))
    (FileUploadRow.mk "F" "alice" "tmp/F.part" 0 "uploading" 10)
    (by simp)

end OnlineTalk
